import Mathlib

/-!
Verification development for the d365-data-exporter repository.

The repository is a browser tool that fetches paginated records from a
D365 OData endpoint and commits them as files to a GitHub repository.
This file gives a shallow embedding of the core pipeline:

* `validateD365Url` (src/utils/msalConfig.js),
* `isValidD365Url`, `fetchEntityCount`, `fetchEntityData`,
  `recordsToCsv`, `recordsToJson` (the D365 OData utilities),
* `isValidRepo`, `isValidPath`, `getFileContent`, `createOrUpdateFile`,
  `checkRepository`, `generateFilename` (src/utils/githubApi.js),
* `handleExport` (src/components/ExportPanel.jsx).

Network collaborators (fetch, the GitHub REST API, the D365 OData API)
are modelled as explicit oracles passed in as function arguments, and
platform functions (the WHATWG URL parser, JSON.stringify / JSON.parse,
base64, URLSearchParams) are modelled by executable Lean definitions.
Ambient values such as Date.now appear as explicit string parameters.
-/

deriving instance DecidableEq for Except

namespace D365Exporter

/-! ## String helpers -/

/-- Whitespace test used by the trim model. -/
def isWsChar (c : Char) : Bool :=
  c = ' ' || c = '\t' || c = '\n' || c = '\r'

/-- Model of JavaScript String.prototype.trim, on character lists so
every application reduces in the kernel. -/
def jsTrim (s : String) : String :=
  String.mk (((s.data.dropWhile isWsChar).reverse.dropWhile isWsChar).reverse)

/-- Lowercase one ASCII character. -/
def lowerChar (c : Char) : Char :=
  if 'A' ≤ c && c ≤ 'Z' then Char.ofNat (c.toNat + 32) else c

/-- Model of JavaScript String.prototype.toLowerCase (ASCII range). -/
def jsToLower (s : String) : String :=
  String.mk (s.data.map lowerChar)

/-- Prefix test on strings via their character lists. -/
def strStartsWith (s pre : String) : Bool :=
  pre.data.isPrefixOf s.data

/-- Suffix test on strings via their character lists. -/
def strEndsWith (s suf : String) : Bool :=
  suf.data.reverse.isPrefixOf s.data.reverse

/-- Character-list infix test: does the pattern occur in the text?
Models the JavaScript String.prototype.includes used in the source. -/
def listContainsSub (pat : List Char) : List Char → Bool
  | [] => pat.isEmpty
  | c :: rest => pat.isPrefixOf (c :: rest) || listContainsSub pat rest

/-- Substring test on strings, modelling JavaScript includes. -/
def strContains (s pat : String) : Bool :=
  listContainsSub pat.data s.data

/-- Decimal digit test. -/
def isDigitChar (c : Char) : Bool :=
  '0' ≤ c && c ≤ '9'

/-- Numeric value of a decimal digit character. -/
def digitVal (c : Char) : Nat :=
  c.toNat - '0'.toNat

/-- Fold a list of decimal digit characters into a natural number. -/
def natFromDigits (ds : List Char) : Nat :=
  ds.foldl (fun a c => 10 * a + digitVal c) 0

/-- Model of JavaScript parseInt(text, 10): skip leading whitespace,
accept an optional sign, then read a leading run of decimal digits;
NaN (here none) when no digit is found. -/
def parseIntJS (s : String) : Option Int :=
  let t := s.data.dropWhile (fun c => c = ' ' || c = '\t' || c = '\n' || c = '\r')
  let (neg, u) : Bool × List Char :=
    match t with
    | '-' :: rest => (true, rest)
    | '+' :: rest => (false, rest)
    | rest => (false, rest)
  let digits := u.takeWhile isDigitChar
  if digits.isEmpty then none
  else
    let n : Int := Int.ofNat (natFromDigits digits)
    some (if neg then -n else n)

/-! ## Model of the WHATWG URL parser

The source calls the platform's URL construct in `validateD365Url` and
`isValidD365Url`.  We model it for absolute http(s) URLs, which is the
only shape those call sites can produce: the string is split into an
authority (up to the first of '/', '?', '#'), an optional userinfo part
(up to the last '@'), a lowercased hostname and an optional numeric
port; the default https port 443 is dropped, and parsing fails on an
empty hostname, a structurally invalid host character, a non-numeric
port or a port above 65535. -/

/-- Parsed URL pieces needed by the source: hostname and optional port. -/
structure UrlParts where
  hostname : String
  port : Option Nat
  deriving Repr, DecidableEq

/-- Characters that terminate the authority section of a URL. -/
def authorityEnd (c : Char) : Bool :=
  c = '/' || c = '?' || c = '#'

/-- Drop an optional userinfo prefix: everything up to the last '@'. -/
def dropUserinfo (cs : List Char) : List Char :=
  let rev := cs.reverse
  let beforeAt := rev.takeWhile (fun c => c ≠ '@')
  if beforeAt.length = cs.length then cs else beforeAt.reverse

/-- Characters that may not appear in a hostname in this model. -/
def badHostChar (c : Char) : Bool :=
  c = ' ' || c = '#' || c = '/' || c = '?' || c = '@' || c = ':' ||
  c = '[' || c = ']' || c = '\\'

/-- Parse the host[:port] section; fails on empty host, bad host
characters, a non-numeric port or a port above 65535. -/
def parseHostPort (cs : List Char) : Option UrlParts :=
  match cs.splitOn ':' with
  | [h] =>
    if h.isEmpty || h.any badHostChar then none
    else some { hostname := jsToLower (String.mk h), port := none }
  | [h, p] =>
    if h.isEmpty || h.any badHostChar then none
    else if p.isEmpty then
      some { hostname := jsToLower (String.mk h), port := none }
    else if p.all isDigitChar then
      let n := natFromDigits p
      if n > 65535 then none
      else if n = 443 then some { hostname := jsToLower (String.mk h), port := none }
      else some { hostname := jsToLower (String.mk h), port := some n }
    else none
  | _ => none

/-- Model of the platform URL parser restricted to absolute http(s)
URLs; returns none (a thrown TypeError in the source) otherwise. -/
def parseUrl (s : String) : Option UrlParts :=
  let rest? : Option (List Char) :=
    if strStartsWith s "https://" then some (s.data.drop 8)
    else if strStartsWith s "http://" then some (s.data.drop 7)
    else none
  match rest? with
  | none => none
  | some rest =>
    let authority := rest.takeWhile (fun c => !authorityEnd c)
    parseHostPort (dropUserinfo authority)

/-- Serialization of the host (hostname plus non-default port), as the
platform's URL.host property returns it. -/
def UrlParts.hostString (u : UrlParts) : String :=
  match u.port with
  | none => u.hostname
  | some n => u.hostname ++ ":" ++ toString n

/-! ## validateD365Url (src/utils/msalConfig.js) -/

/-- Trusted domain suffixes hardcoded in the source. -/
def trustedDomains : List String :=
  [".operations.dynamics.com", ".sandbox.operations.dynamics.com", ".cloudax.dynamics.com"]

/-- Normalization performed by validateD365Url before parsing: trim,
lowercase, force an https scheme, strip one trailing slash.  The
http-to-https rewrite in the source replaces the first occurrence,
which under the startsWith guard is the prefix. -/
def normalizeD365Url (url : String) : String :=
  let n0 := jsToLower (jsTrim url)
  let n1 :=
    if strStartsWith n0 "https://" then n0
    else if strStartsWith n0 "http://" then "https://" ++ String.mk (n0.data.drop 7)
    else "https://" ++ n0
  if strEndsWith n1 "/" then String.mk (n1.data.take (n1.data.length - 1)) else n1

/-- Embedding of validateD365Url from src/utils/msalConfig.js: the
empty string is falsy and yields null; otherwise the input is
normalized and parsed.  The trusted-domain membership test in the
source only logs a warning ("Allow it anyway for flexibility") and does
not affect the result, so it does not appear in the returned value. -/
def validateD365Url (url : String) : Option String :=
  if url = "" then none
  else
    match parseUrl (normalizeD365Url url) with
    | none => none
    | some parsed => some ("https://" ++ parsed.hostString)

/-! ## D365 OData client (the d365Api utilities)

The file imported as ../utils/d365Api holds isValidD365Url,
fetchEntityCount, fetchEntityData, recordsToCsv and recordsToJson.
The D365 endpoint itself is modelled as an oracle mapping a request
URL to a response. -/

/-- Embedding of isValidD365Url: parse the URL and check the lowercased
hostname against the trusted-domain suffixes; a parse failure is
caught and yields false. -/
def isValidD365Url (url : String) : Bool :=
  match parseUrl url with
  | none => false
  | some parsed =>
    trustedDomains.any (fun domain => strEndsWith (jsToLower parsed.hostname) domain)

/-- Characters allowed in an entity name by the sanitizer regex. -/
def isEntityChar (c : Char) : Bool :=
  ('a' ≤ c && c ≤ 'z') || ('A' ≤ c && c ≤ 'Z') || ('0' ≤ c && c ≤ '9') || c = '_'

/-- Embedding of the sanitizer entityName.replace of every character
outside [a-zA-Z0-9_] with the empty string. -/
def sanitizeEntityName (s : String) : String :=
  String.mk (s.data.filter isEntityChar)

/-- Spec regex for valid resource names: at least one character, all in
[A-Za-z0-9_]. -/
def matchesEntityRegex (s : String) : Bool :=
  !s.data.isEmpty && s.data.all isEntityChar

/-- Response of the D365 count endpoint, as seen by fetchEntityCount:
either an HTTP response with its ok flag and text body, or a rejected
fetch (a network error caught by the surrounding try). -/
inductive CountResp where
  | http (ok : Bool) (body : String)
  | netFail (msg : String)

/-- Request URL of the count endpoint built by fetchEntityCount. -/
def countUrl (baseUrl safeName : String) : String :=
  baseUrl ++ "/data/" ++ safeName ++ "/$count"

/-- Embedding of fetchEntityCount: validate the base URL, reject an
entity name the sanitizer changes, then ask the count endpoint; any
non-ok response, non-numeric body or network failure yields null (here
none) rather than an error. -/
def fetchEntityCount (server : String → CountResp) (baseUrl entityName : String) :
    Except String (Option Int) :=
  if !isValidD365Url baseUrl then .error "Invalid D365 URL"
  else
    let safeName := sanitizeEntityName entityName
    if safeName = "" || safeName ≠ entityName then .error "Invalid entity name"
    else
      match server (countUrl baseUrl safeName) with
      | .netFail _ => .ok none
      | .http ok body =>
        if !ok then .ok none
        else .ok (parseIntJS body)

/-- One page of an OData collection response: its value array and the
optional continuation link. -/
structure Page (α : Type) where
  value : List α
  nextLink : Option String

/-- Response of the D365 collection endpoint for one page request. -/
inductive DResp (α : Type) where
  | success (page : Page α)
  | failure (status : Nat)

/-- Progress event passed to the onProgress callback of
fetchEntityData: a fetching event before each page request, and one
complete event after the loop. -/
inductive ProgEvent where
  | fetching (page : Nat) (recordCount : Nat)
  | complete (recordCount : Nat)
  deriving Repr, DecidableEq

/-- Query options destructured by fetchEntityData. -/
structure FetchOptions where
  top : Option Nat := none
  select : Option String := none
  filter : Option String := none
  orderby : Option String := none

/-- Hex digit (uppercase), for the URLSearchParams percent-encoding. -/
def hexDigitUpper (n : Nat) : Char :=
  if n < 10 then Char.ofNat ('0'.toNat + n) else Char.ofNat ('A'.toNat + (n - 10))

/-- Characters the urlencoded serializer leaves as they are. -/
def urlencodedSafe (c : Char) : Bool :=
  ('a' ≤ c && c ≤ 'z') || ('A' ≤ c && c ≤ 'Z') || ('0' ≤ c && c ≤ '9') ||
  c = '*' || c = '-' || c = '.' || c = '_'

/-- UTF-8 bytes of one character, as naturals below 256. -/
def utf8Bytes (c : Char) : List Nat :=
  let n := c.toNat
  if n < 0x80 then [n]
  else if n < 0x800 then [0xC0 + n / 64, 0x80 + n % 64]
  else if n < 0x10000 then [0xE0 + n / 4096, 0x80 + n / 64 % 64, 0x80 + n % 64]
  else [0xF0 + n / 262144, 0x80 + n / 4096 % 64, 0x80 + n / 64 % 64, 0x80 + n % 64]

/-- Percent-encode one UTF-8 byte. -/
def percentByte (b : Nat) : List Char :=
  ['%', hexDigitUpper (b / 16), hexDigitUpper (b % 16)]

/-- Model of the application/x-www-form-urlencoded serializer used by
URLSearchParams: safe characters kept, space as '+', anything else
percent-encoded bytewise. -/
def urlencode (s : String) : String :=
  String.mk (s.data.flatMap (fun c =>
    if urlencodedSafe c then [c]
    else if c = ' ' then ['+']
    else (utf8Bytes c).flatMap percentByte))

/-- One key=value pair of the query string. -/
def urlencodePair (k v : String) : String :=
  urlencode k ++ "=" ++ urlencode v

/-- D365 maximum page size used for the top clamp and the Prefer
header. -/
def pageSize : Nat := 5000

/-- Query parameters serialized by URLSearchParams in insertion order,
as fetchEntityData sets them; a top of 0 is falsy and skipped. -/
def entityQueryParams (opts : FetchOptions) : List String :=
  (match opts.top with
   | some t => if t ≠ 0 then [urlencodePair "$top" (toString (min t pageSize))] else []
   | none => []) ++
  (match opts.select with | some s => [urlencodePair "$select" s] | none => []) ++
  (match opts.filter with | some f => [urlencodePair "$filter" f] | none => []) ++
  (match opts.orderby with | some o => [urlencodePair "$orderby" o] | none => [])

/-- Initial request URL built by fetchEntityData from the validated
base URL, the sanitized entity name and the serialized parameters. -/
def buildEntityUrl (baseUrl safeName : String) (opts : FetchOptions) : String :=
  let params := entityQueryParams opts
  let base := baseUrl ++ "/data/" ++ safeName
  if params.isEmpty then base
  else base ++ "?" ++ String.intercalate "&" params

/-- Result of a fetchEntityData run: the accumulated records, the
progress events in the order the callback was invoked, and the page
request URLs in the order they were fetched. -/
structure FetchOut (α : Type) where
  records : List α
  events : List ProgEvent
  requests : List String
  deriving Repr, DecidableEq

/-- Embedding of the pagination loop of fetchEntityData.  The loop
variables mirror the source: url (the while condition, with an absent
or empty nextLink falsy), pageCount, allRecords.  Each iteration fires
the fetching progress event, issues the request, appends the value
array, then breaks when the top cap is met (truncating), or when
pageCount exceeds 100, or when the continuation link is falsy.  The
fuel argument makes the recursion structural; the pageCount > 100
check bounds the live iterations by 101, so every call from
fetchEntityData starts with fuel 101 and the fuel-exhausted branch is
unreachable. -/
def fetchLoop (server : String → DResp α) (entityName : String) (top : Option Nat) :
    Nat → String → Nat → List α → List ProgEvent → List String →
    Except String (List α × List ProgEvent × List String)
  | 0, _, _, acc, events, requests => .ok (acc, events, requests)
  | fuel + 1, url, pageCount, acc, events, requests =>
    if url = "" then .ok (acc, events, requests)
    else
      let pc := pageCount + 1
      let events := events ++ [.fetching pc acc.length]
      let requests := requests ++ [url]
      match server url with
      | .failure status =>
        .error ("Failed to fetch " ++ entityName ++ ": " ++ toString status)
      | .success page =>
        let acc := acc ++ page.value
        match top with
        | some t =>
          if t ≠ 0 && t ≤ acc.length then .ok (acc.take t, events, requests)
          else if pc > 100 then .ok (acc, events, requests)
          else fetchLoop server entityName top fuel (page.nextLink.getD "") pc acc events requests
        | none =>
          if pc > 100 then .ok (acc, events, requests)
          else fetchLoop server entityName top fuel (page.nextLink.getD "") pc acc events requests

/-- Embedding of fetchEntityData: validate the base URL, reject an
entity name the sanitizer changes (both before any request), build the
initial URL and drain the paginated endpoint; the complete progress
event fires after the loop. -/
def fetchEntityData (server : String → DResp α) (baseUrl entityName : String)
    (opts : FetchOptions) : Except String (FetchOut α) :=
  if !isValidD365Url baseUrl then .error "Invalid D365 URL"
  else
    let safeName := sanitizeEntityName entityName
    if safeName = "" || safeName ≠ entityName then .error "Invalid entity name"
    else
      let url := buildEntityUrl baseUrl safeName opts
      match fetchLoop server entityName opts.top 101 url 0 [] [] [] with
      | .error e => .error e
      | .ok (recs, events, reqs) =>
        .ok { records := recs, events := events ++ [.complete recs.length], requests := reqs }

/-! ## GitHub client (src/utils/githubApi.js)

The GitHub REST API is modelled per call site as an oracle reply.  A
reply is either an HTTP response carrying its ok flag, status code,
the message field of its JSON error body (none when the body fails to
parse or has no message) and, for the contents endpoint, the file
object with its sha; or a rejected fetch. -/

/-- Characters allowed by the repository owner/name regex
[a-zA-Z0-9_.-]. -/
def isRepoChar (c : Char) : Bool :=
  ('a' ≤ c && c ≤ 'z') || ('A' ≤ c && c ≤ 'Z') || ('0' ≤ c && c ≤ '9') ||
  c = '_' || c = '.' || c = '-'

/-- Embedding of isValidRepo: both strings truthy (nonempty) and both
matching the repository regex. -/
def isValidRepo (owner repo : String) : Bool :=
  owner ≠ "" && repo ≠ "" &&
  (!owner.data.isEmpty && owner.data.all isRepoChar) &&
  (!repo.data.isEmpty && repo.data.all isRepoChar)

/-- Characters allowed by the file path regex [a-zA-Z0-9_.\-\/]. -/
def isPathChar (c : Char) : Bool :=
  isRepoChar c || c = '/'

/-- Embedding of isValidPath: nonempty, no ".." anywhere, no leading
slash, and only path characters. -/
def isValidPath (path : String) : Bool :=
  if path = "" then false
  else if strContains path ".." || strStartsWith path "/" then false
  else !path.data.isEmpty && path.data.all isPathChar

/-- File object returned by the GitHub contents endpoint, reduced to
the field the source reads; sha none models an absent field and the
empty string a falsy one. -/
structure FileInfo where
  sha : Option String
  deriving Repr, DecidableEq

/-- Reply of the GitHub API to one request. -/
inductive GhReply where
  | http (ok : Bool) (status : Nat) (bodyMessage : Option String) (body : FileInfo)
  | netFail (msg : String)
  deriving Repr, DecidableEq

/-- Error message thrown by githubRequest for a non-ok response: the
message field of the error body when present and truthy, otherwise the
synthesized GitHub API Error text. -/
def githubErrorMessage (status : Nat) (bodyMessage : Option String) : String :=
  match bodyMessage with
  | some m => if m = "" then "GitHub API Error: " ++ toString status else m
  | none => "GitHub API Error: " ++ toString status

/-- Embedding of githubRequest: a rejected fetch propagates, a non-ok
response throws the githubErrorMessage, a 204 returns null, and any
other ok response returns its body. -/
def githubRequest (reply : GhReply) : Except String (Option FileInfo) :=
  match reply with
  | .netFail m => .error m
  | .http ok status bodyMessage body =>
    if !ok then .error (githubErrorMessage status bodyMessage)
    else if status = 204 then .ok none
    else .ok (some body)

/-- Endpoint requested by getFileContent. -/
def fileContentEndpoint (owner repo path branch : String) : String :=
  "/repos/" ++ owner ++ "/" ++ repo ++ "/contents/" ++ path ++ "?ref=" ++ branch

/-- Embedding of getFileContent: validate owner, repo and path, issue
the contents request, and catch exactly those failures whose message
contains the substring 404, turning them into null. -/
def getFileContent (owner repo path : String) (reply : GhReply) :
    Except String (Option FileInfo) :=
  if !(isValidRepo owner repo && isValidPath path) then
    .error "Invalid repository or path"
  else
    match githubRequest reply with
    | .ok v => .ok v
    | .error msg => if strContains msg "404" then .ok none else .error msg

/-- Base64 alphabet. -/
def b64Alphabet : List Char :=
  "ABCDEFGHIJKLMNOPQRSTUVWXYZabcdefghijklmnopqrstuvwxyz0123456789+/".data

/-- Base64 digit for a 6-bit value. -/
def b64Char (n : Nat) : Char :=
  (b64Alphabet.getD n 'A')

/-- Base64-encode a byte list, with '=' padding. -/
def base64Encode : List Nat → String
  | [] => ""
  | [a] =>
    String.mk [b64Char (a / 4), b64Char (a % 4 * 16), '=', '=']
  | [a, b] =>
    let x := a * 256 + b
    String.mk [b64Char (x / 1024), b64Char (x / 16 % 64), b64Char (x % 16 * 4), '=']
  | a :: b :: c :: rest =>
    let x := (a * 256 + b) * 256 + c
    String.mk [b64Char (x / 262144), b64Char (x / 4096 % 64), b64Char (x / 64 % 64), b64Char (x % 64)] ++
    base64Encode rest

/-- Model of btoa(unescape(encodeURIComponent(content))): base64 of
the UTF-8 bytes of the content. -/
def encodeContentBase64 (content : String) : String :=
  base64Encode (content.data.flatMap utf8Bytes)

/-- Body of the PUT request issued by createOrUpdateFile. -/
structure PutPayload where
  message : String
  content : String
  branch : String
  sha : Option String
  deriving Repr, DecidableEq

/-- Embedding of createOrUpdateFile, up to the PUT request it issues:
validate owner, repo and path, look the file up via getFileContent,
base64-encode the content, and attach the existing sha to the payload
exactly when the lookup produced a file object with a truthy sha.  The
returned value is the payload of the PUT request. -/
def createOrUpdateFile (owner repo path content message branch : String)
    (readReply : GhReply) : Except String PutPayload :=
  if !(isValidRepo owner repo && isValidPath path) then
    .error "Invalid repository or path"
  else
    match getFileContent owner repo path readReply with
    | .error e => .error e
    | .ok existing =>
      let contentBase64 := encodeContentBase64 content
      let shaField : Option String :=
        match existing with
        | some fi =>
          match fi.sha with
          | some s => if s = "" then none else some s
          | none => none
        | none => none
      .ok { message := message, content := contentBase64, branch := branch, sha := shaField }

/-- Embedding of checkRepository up to the request it issues: reject an
invalid owner/repo pair, otherwise return the endpoint of the
repository lookup request (the push-permission check happens on the
response and is not needed here). -/
def checkRepository (owner repo : String) : Except String String :=
  if !isValidRepo owner repo then .error "Invalid repository format"
  else .ok ("/repos/" ++ owner ++ "/" ++ repo)

/-- Embedding of generateFilename, with the current ISO timestamp as an
explicit argument: unsafe characters of the entity name become
underscores and the timestamp's colons and dots become dashes. -/
def generateFilename (now : String) (entityName format : String) : String :=
  let safeName := String.mk (entityName.data.map (fun c => if isEntityChar c then c else '_'))
  let timestamp := String.mk (now.data.map (fun c => if c = ':' || c = '.' then '-' else c))
  safeName ++ "_" ++ timestamp ++ "." ++ format

/-! ## JSON values, JSON.stringify and JSON.parse

Records returned by the OData endpoint are opaque JSON objects; we
model JSON values with integral numbers.  The platform's
JSON.stringify(x, null, 2) and JSON.parse are modelled by an
executable pretty-printer and parser over character lists, so that the
conversion round-trip of recordsToJson is a real theorem about the
produced text. -/

/-- JSON value, with integral numbers. -/
inductive Json where
  | null
  | bool (b : Bool)
  | num (n : Int)
  | str (s : String)
  | arr (elems : List Json)
  | obj (fields : List (String × Json))

/-- Lowercase hex digit. -/
def hexDigitLower (n : Nat) : Char :=
  if n < 10 then Char.ofNat ('0'.toNat + n) else Char.ofNat ('a'.toNat + (n - 10))

/-- Escape one character as JSON.stringify does: quote, backslash and
the named control characters get two-character escapes, the remaining
control characters a \u00XX escape, everything else stays. -/
def escChar (c : Char) : List Char :=
  if c = '"' then ['\\', '"']
  else if c = '\\' then ['\\', '\\']
  else if c = '\n' then ['\\', 'n']
  else if c = '\t' then ['\\', 't']
  else if c = '\r' then ['\\', 'r']
  else if c = '\x08' then ['\\', 'b']
  else if c = '\x0c' then ['\\', 'f']
  else if c.toNat < 0x20 then
    ['\\', 'u', '0', '0', hexDigitLower (c.toNat / 16), hexDigitLower (c.toNat % 16)]
  else [c]

/-- Escaped body of a JSON string literal. -/
def escapeString (s : String) : List Char :=
  s.data.flatMap escChar

/-- A JSON string literal: quoted escaped body. -/
def quoteString (s : String) : List Char :=
  '"' :: escapeString s ++ ['"']

/-- Decimal digit character for a value below 10. -/
def digitChar (n : Nat) : Char :=
  Char.ofNat ('0'.toNat + n)

/-- Decimal digits of a natural number, least significant first; the
fuel is one more than the input, which always suffices. -/
def natDigitsAux : Nat → Nat → List Char
  | 0, _ => []
  | fuel + 1, n => if n < 10 then [digitChar n] else digitChar (n % 10) :: natDigitsAux fuel (n / 10)

/-- Decimal representation of a natural number. -/
def printNat (n : Nat) : List Char :=
  (natDigitsAux (n + 1) n).reverse

/-- Decimal representation of an integer, as JSON.stringify prints an
integral number. -/
def printInt (i : Int) : List Char :=
  if i < 0 then '-' :: printNat i.natAbs else printNat i.toNat

/-- Indentation for nesting depth d under the two-space gap. -/
def padChars (d : Nat) : List Char :=
  List.replicate (2 * d) ' '

mutual

/-- Model of JSON.stringify(x, null, 2) for a value whose opening
character sits at nesting depth d: empty containers print without
whitespace, nonempty ones put every entry on its own indented line. -/
def printAt (d : Nat) : Json → List Char
  | .null => "null".data
  | .bool true => "true".data
  | .bool false => "false".data
  | .num i => printInt i
  | .str s => quoteString s
  | .arr [] => ['[', ']']
  | .arr (x :: xs) =>
    '[' :: '\n' :: printItems d (x :: xs) ++ '\n' :: padChars d ++ [']']
  | .obj [] => ['\x7b', '\x7d']
  | .obj (f :: fs) =>
    '\x7b' :: '\n' :: printFields d (f :: fs) ++ '\n' :: padChars d ++ ['\x7d']

/-- Array entries, one per line at depth d+1, separated by commas. -/
def printItems (d : Nat) : List Json → List Char
  | [] => []
  | [x] => padChars (d + 1) ++ printAt (d + 1) x
  | x :: y :: xs =>
    padChars (d + 1) ++ printAt (d + 1) x ++ ',' :: '\n' :: printItems d (y :: xs)

/-- Object entries, one per line at depth d+1, separated by commas. -/
def printFields (d : Nat) : List (String × Json) → List Char
  | [] => []
  | [(k, v)] => padChars (d + 1) ++ quoteString k ++ ':' :: ' ' :: printAt (d + 1) v
  | (k, v) :: f :: fs =>
    padChars (d + 1) ++ quoteString k ++ ':' :: ' ' :: printAt (d + 1) v ++
      ',' :: '\n' :: printFields d (f :: fs)

end

/-- Model of JSON.stringify(x, null, 2) as a string. -/
def stringify (j : Json) : String :=
  String.mk (printAt 0 j)

/-- JSON whitespace. -/
def isJsonWs (c : Char) : Bool :=
  c = ' ' || c = '\n' || c = '\t' || c = '\r'

/-- Skip JSON whitespace. -/
def skipWs (cs : List Char) : List Char :=
  cs.dropWhile isJsonWs

/-- Hex digit test. -/
def isHexDigit (c : Char) : Bool :=
  isDigitChar c || ('a' ≤ c && c ≤ 'f') || ('A' ≤ c && c ≤ 'F')

/-- Value of a hex digit. -/
def hexVal (c : Char) : Nat :=
  if isDigitChar c then c.toNat - '0'.toNat
  else if 'a' ≤ c && c ≤ 'f' then c.toNat - 'a'.toNat + 10
  else c.toNat - 'A'.toNat + 10

/-- Decode one short escape character of a JSON string literal. -/
def unescapeChar (c : Char) : Option Char :=
  if c = '"' then some '"'
  else if c = '\\' then some '\\'
  else if c = '/' then some '/'
  else if c = 'n' then some '\n'
  else if c = 't' then some '\t'
  else if c = 'r' then some '\r'
  else if c = 'b' then some '\x08'
  else if c = 'f' then some '\x0c'
  else none

/-- Parse the body of a JSON string literal after its opening quote:
content characters up to the closing quote, handling backslash
escapes. -/
def parseStrBody : List Char → Option (List Char × List Char)
  | [] => none
  | c :: rest =>
    if c = '"' then some ([], rest)
    else if c = '\\' then
      match rest with
      | 'u' :: h1 :: h2 :: h3 :: h4 :: rest2 =>
        if isHexDigit h1 && isHexDigit h2 && isHexDigit h3 && isHexDigit h4 then
          let n := ((hexVal h1 * 16 + hexVal h2) * 16 + hexVal h3) * 16 + hexVal h4
          (parseStrBody rest2).map (fun p => (Char.ofNat n :: p.1, p.2))
        else none
      | e :: rest2 =>
        (match unescapeChar e with
         | some d => (parseStrBody rest2).map (fun p => (d :: p.1, p.2))
         | none => none)
      | [] => none
    else (parseStrBody rest).map (fun p => (c :: p.1, p.2))

/-- Parse a leading run of decimal digits. -/
def parseNatNum (cs : List Char) : Option (Nat × List Char) :=
  let digits := cs.takeWhile isDigitChar
  if digits.isEmpty then none
  else some (natFromDigits digits, cs.dropWhile isDigitChar)

mutual

/-- Model of the platform JSON parser (restricted to integral
numbers): skip whitespace and parse one value, leaving the remaining
input.  The fuel bounds the recursion depth; parseJson passes enough
for any input it can receive. -/
def parseValue : Nat → List Char → Option (Json × List Char)
  | 0, _ => none
  | fuel + 1, cs =>
    match skipWs cs with
    | [] => none
    | c :: r =>
      if c = 'n' then
        match r with
        | 'u' :: 'l' :: 'l' :: r2 => some (.null, r2)
        | _ => none
      else if c = 't' then
        match r with
        | 'r' :: 'u' :: 'e' :: r2 => some (.bool true, r2)
        | _ => none
      else if c = 'f' then
        match r with
        | 'a' :: 'l' :: 's' :: 'e' :: r2 => some (.bool false, r2)
        | _ => none
      else if c = '"' then (parseStrBody r).map (fun p => (.str (String.mk p.1), p.2))
      else if c = '[' then
        match skipWs r with
        | [] => none
        | c2 :: r2 =>
          if c2 = ']' then some (.arr [], r2)
          else (parseItems fuel (c2 :: r2)).map (fun p => (.arr p.1, p.2))
      else if c = '\x7b' then
        match skipWs r with
        | [] => none
        | c2 :: r2 =>
          if c2 = '\x7d' then some (.obj [], r2)
          else (parseObjFields fuel (c2 :: r2)).map (fun p => (.obj p.1, p.2))
      else if c = '-' then (parseNatNum r).map (fun p => (.num (-(Int.ofNat p.1)), p.2))
      else if isDigitChar c then
        (parseNatNum (c :: r)).map (fun p => (.num (Int.ofNat p.1), p.2))
      else none

/-- Parse one or more comma-separated array entries and the closing
bracket. -/
def parseItems : Nat → List Char → Option (List Json × List Char)
  | 0, _ => none
  | fuel + 1, cs =>
    match parseValue fuel cs with
    | none => none
    | some (j, rest) =>
      match skipWs rest with
      | [] => none
      | c :: r =>
        if c = ',' then (parseItems fuel r).map (fun p => (j :: p.1, p.2))
        else if c = ']' then some ([j], r)
        else none

/-- Parse one or more comma-separated object entries and the closing
brace. -/
def parseObjFields : Nat → List Char → Option (List (String × Json) × List Char)
  | 0, _ => none
  | fuel + 1, cs =>
    match skipWs cs with
    | [] => none
    | c0 :: r =>
      if c0 = '"' then
        match parseStrBody r with
        | none => none
        | some (key, rest) =>
          match skipWs rest with
          | [] => none
          | c1 :: r2 =>
            if c1 = ':' then
              match parseValue fuel r2 with
              | none => none
              | some (j, rest2) =>
                match skipWs rest2 with
                | [] => none
                | c2 :: r3 =>
                  if c2 = ',' then
                    (parseObjFields fuel r3).map (fun p => ((String.mk key, j) :: p.1, p.2))
                  else if c2 = '\x7d' then some ([(String.mk key, j)], r3)
                  else none
            else none
      else none

end

/-- Model of JSON.parse: parse one value with fuel one more than the
input length, and accept only whitespace after it. -/
def parseJson (s : String) : Option Json :=
  match parseValue (s.data.length + 1) s.data with
  | some (j, rest) => if (skipWs rest).isEmpty then some j else none
  | none => none

/-- Field lookup on a parsed JSON object. -/
def Json.getField (j : Json) (key : String) : Option Json :=
  match j with
  | .obj fields => fields.lookup key
  | _ => none

/-! ## Format converter (recordsToCsv, recordsToJson) -/

/-- Embedding of recordsToJson, with the Date().toISOString() value as
an explicit argument: wrap the records in the envelope object and
pretty-print it with a two-space gap. -/
def recordsToJson (now : String) (records : List Json) (entityName : String) : String :=
  stringify (.obj
    [("exportTimestamp", .str now),
     ("entityName", .str entityName),
     ("recordCount", .num records.length),
     ("data", .arr records)])

/-- Stringification of one CSV cell value, as Papa.unparse renders
field values: null empty, booleans and numbers printed, strings raw,
nested containers stringified. -/
def csvCell : Json → String
  | .null => ""
  | .bool true => "true"
  | .bool false => "false"
  | .num i => String.mk (printInt i)
  | .str s => s
  | j => stringify j

/-- Quote one CSV field with the quote and escape character both a
double quote, as the quotes:true options of the source demand. -/
def quoteCsv (s : String) : String :=
  String.mk ('"' :: s.data.flatMap (fun c => if c = '"' then ['"', '"'] else [c]) ++ ['"'])

/-- Value of one field of a record, null when absent or when the
record is not an object. -/
def recordField (r : Json) (k : String) : Json :=
  match r with
  | .obj fs => (fs.lookup k).getD .null
  | _ => .null

/-- Model of Papa.unparse with header:true and full quoting: the
header holds the first record's keys, every field is quoted, rows are
joined with CRLF. -/
def papaUnparse (records : List Json) : String :=
  match records with
  | [] => ""
  | r :: _ =>
    let fields := match r with | .obj fs => fs.map Prod.fst | _ => []
    let headerRow := String.intercalate "," (fields.map quoteCsv)
    let rows := records.map (fun rec =>
      String.intercalate "," (fields.map (fun k => quoteCsv (csvCell (recordField rec k)))))
    String.intercalate "\r\n" (headerRow :: rows)

/-- Embedding of recordsToCsv: a falsy or empty record list yields the
empty string, anything else is handed to the delimited-text
converter. -/
def recordsToCsv (records : List Json) : String :=
  if records.isEmpty then "" else papaUnparse records

/-! ## Round-trip lemmas for the JSON model

These support the conversion round-trip claim about recordsToJson. -/

/-- Induction principle for Json with elementwise hypotheses for the
nested lists, derived by strong induction on sizeOf. -/
theorem Json.inductionOn {motive : Json → Prop}
    (hnull : motive .null)
    (hbool : ∀ b, motive (.bool b))
    (hnum : ∀ n, motive (.num n))
    (hstr : ∀ s, motive (.str s))
    (harr : ∀ xs, (∀ x ∈ xs, motive x) → motive (.arr xs))
    (hobj : ∀ fs, (∀ kv ∈ fs, motive kv.2) → motive (.obj fs)) :
    ∀ j, motive j := by
  have main : ∀ n j, sizeOf j ≤ n → motive j := by
    intro n
    induction n with
    | zero =>
      intro j h
      cases j <;> simp_all
    | succ n ih =>
      intro j h
      cases j with
      | null => exact hnull
      | bool b => exact hbool b
      | num m => exact hnum m
      | str s => exact hstr s
      | arr xs =>
        refine harr xs (fun x hx => ih x ?_)
        have := List.sizeOf_lt_of_mem hx
        simp at h
        omega
      | obj fs =>
        refine hobj fs (fun kv hkv => ih kv.2 ?_)
        have h1 := List.sizeOf_lt_of_mem hkv
        have h2 : sizeOf kv.2 < sizeOf kv := by
          cases kv with
          | mk a b => simp
        simp at h
        omega
  intro j
  exact main (sizeOf j) j (Nat.le_refl _)

theorem char_eq_of_toNat_eq {c d : Char} (h : c.toNat = d.toNat) : c = d := by
  apply Char.eq_of_val_eq
  apply UInt32.eq_of_toBitVec_eq
  exact BitVec.eq_of_toNat_eq (by simpa using h)

theorem isDigitChar_toNat {c : Char} (h : isDigitChar c = true) :
    48 ≤ c.toNat ∧ c.toNat ≤ 57 := by
  simp [isDigitChar] at h
  exact ⟨h.1, h.2⟩

theorem digitChar_toNat {n : Nat} (h : n < 10) : (digitChar n).toNat = 48 + n := by
  interval_cases n <;> decide

theorem digitVal_digitChar {n : Nat} (h : n < 10) : digitVal (digitChar n) = n := by
  simp [digitVal, digitChar_toNat h]

theorem isDigitChar_digitChar {n : Nat} (h : n < 10) : isDigitChar (digitChar n) = true := by
  interval_cases n <;> decide

theorem skipWs_cons_ws {c : Char} (h : isJsonWs c = true) (s : List Char) :
    skipWs (c :: s) = skipWs s := by
  simp [skipWs, List.dropWhile_cons, h]

theorem skipWs_cons_not_ws {c : Char} (h : isJsonWs c = false) (s : List Char) :
    skipWs (c :: s) = c :: s := by
  simp [skipWs, List.dropWhile_cons, h]

theorem skipWs_append_all_ws {pre : List Char} (h : ∀ c ∈ pre, isJsonWs c = true)
    (s : List Char) : skipWs (pre ++ s) = skipWs s := by
  induction pre with
  | nil => rfl
  | cons c cs ih =>
    rw [List.cons_append, skipWs_cons_ws (h c (by simp)) (cs ++ s)]
    exact ih (fun c hc => h c (by simp [hc]))

theorem skipWs_padChars (d : Nat) (s : List Char) :
    skipWs (padChars d ++ s) = skipWs s := by
  apply skipWs_append_all_ws
  intro c hc
  simp [padChars] at hc
  simp [hc.2, isJsonWs]

theorem skipWs_skipWs (s : List Char) : skipWs (skipWs s) = skipWs s := by
  induction s with
  | nil => rfl
  | cons c cs ih =>
    by_cases h : isJsonWs c = true
    · rw [skipWs_cons_ws h, ih]
    · have h2 : isJsonWs c = false := by simpa using h
      rw [skipWs_cons_not_ws h2, skipWs_cons_not_ws h2]

theorem natFromDigits_append_one (xs : List Char) (d : Char) :
    natFromDigits (xs ++ [d]) = 10 * natFromDigits xs + digitVal d := by
  simp [natFromDigits, List.foldl_append]

theorem natDigitsAux_spec : ∀ fuel n, n < fuel →
    natDigitsAux fuel n ≠ [] ∧
    (∀ c ∈ natDigitsAux fuel n, isDigitChar c = true) ∧
    natFromDigits ((natDigitsAux fuel n).reverse) = n := by
  intro fuel
  induction fuel with
  | zero => intro n h; omega
  | succ fuel ih =>
    intro n h
    by_cases h10 : n < 10
    · refine ⟨by simp [natDigitsAux, h10], ?_, ?_⟩
      · intro c hc
        simp [natDigitsAux, h10] at hc
        subst hc
        exact isDigitChar_digitChar h10
      · simp [natDigitsAux, h10, natFromDigits, digitVal_digitChar h10]
    · have hd : n / 10 < fuel := by
        have : n / 10 < n := Nat.div_lt_self (by omega) (by omega)
        omega
      obtain ⟨hne, hall, hval⟩ := ih (n / 10) hd
      have hmod : n % 10 < 10 := Nat.mod_lt _ (by omega)
      refine ⟨by simp [natDigitsAux, h10], ?_, ?_⟩
      · intro c hc
        simp [natDigitsAux, h10] at hc
        rcases hc with hc | hc
        · subst hc; exact isDigitChar_digitChar hmod
        · exact hall c hc
      · rw [show natDigitsAux (fuel + 1) n =
              digitChar (n % 10) :: natDigitsAux fuel (n / 10) by simp [natDigitsAux, h10]]
        rw [List.reverse_cons, natFromDigits_append_one, hval, digitVal_digitChar hmod]
        omega

theorem printNat_ne_nil (n : Nat) : printNat n ≠ [] := by
  have := (natDigitsAux_spec (n + 1) n (by omega)).1
  simp [printNat]
  intro h
  exact this (by simpa using h)

theorem printNat_all_digits (n : Nat) : ∀ c ∈ printNat n, isDigitChar c = true := by
  intro c hc
  have := (natDigitsAux_spec (n + 1) n (by omega)).2.1
  simp [printNat] at hc
  exact this c hc

theorem natFromDigits_printNat (n : Nat) : natFromDigits (printNat n) = n :=
  (natDigitsAux_spec (n + 1) n (by omega)).2.2

theorem takeWhile_append_sat {p : Char → Bool} : ∀ (l rest : List Char),
    (∀ c ∈ l, p c = true) → (∀ c ∈ rest.head?, p c = false) →
    (l ++ rest).takeWhile p = l ∧ (l ++ rest).dropWhile p = rest := by
  intro l rest hl hrest
  induction l with
  | nil =>
    cases rest with
    | nil => simp
    | cons c cs =>
      simp at hrest
      simp [List.takeWhile_cons, List.dropWhile_cons, hrest]
  | cons c cs ih =>
    have hc : p c = true := hl c (by simp)
    have := ih (fun x hx => hl x (by simp [hx]))
    simp [List.takeWhile_cons, List.dropWhile_cons, hc, this.1, this.2]

/-- Condition that the remaining input does not start with a digit. -/
def noDigitStart (rest : List Char) : Prop :=
  ∀ c ∈ rest.head?, isDigitChar c = false

theorem parseNatNum_printNat (n : Nat) (rest : List Char) (hrest : noDigitStart rest) :
    parseNatNum (printNat n ++ rest) = some (n, rest) := by
  obtain ⟨htw, hdw⟩ := takeWhile_append_sat (printNat n) rest (printNat_all_digits n) hrest
  have hne := printNat_ne_nil n
  simp [parseNatNum, htw, hdw, natFromDigits_printNat]
  intro h
  exact absurd h hne

theorem isHexDigit_hexDigitLower {m : Nat} (h : m < 16) :
    isHexDigit (hexDigitLower m) = true := by
  interval_cases m <;> decide

theorem hexVal_hexDigitLower {m : Nat} (h : m < 16) : hexVal (hexDigitLower m) = m := by
  interval_cases m <;> decide

theorem char_ofNat_toNat {c : Char} (h : c.toNat < 0xd800) : Char.ofNat c.toNat = c := by
  apply char_eq_of_toNat_eq
  have hv : c.toNat.isValidChar := Or.inl h
  simp [Char.ofNat, hv]
  rfl

theorem parseStrBody_quote (rest : List Char) : parseStrBody ('"' :: rest) = some ([], rest) := by
  rw [parseStrBody.eq_def]; rfl

theorem parseStrBody_other {c : Char} (h1 : c ≠ '"') (h2 : c ≠ '\\') (X : List Char) :
    parseStrBody (c :: X) = (parseStrBody X).map (fun p => (c :: p.1, p.2)) := by
  rw [parseStrBody.eq_def]
  simp only [if_neg h1, if_neg h2]

theorem parseStrBody_hexEscape (a b : Char) (X : List Char) :
    parseStrBody ('\\' :: 'u' :: '0' :: '0' :: a :: b :: X) =
    (if (isHexDigit '0' && isHexDigit '0' && isHexDigit a && isHexDigit b) = true then
      (parseStrBody X).map (fun p => (Char.ofNat
        (((hexVal '0' * 16 + hexVal '0') * 16 + hexVal a) * 16 + hexVal b) :: p.1, p.2))
    else none) := by
  rw [parseStrBody.eq_def]; rfl

theorem parseStrBody_escape : ∀ (cs rest : List Char),
    parseStrBody (cs.flatMap escChar ++ '"' :: rest) = some (cs, rest) := by
  intro cs
  induction cs with
  | nil =>
    intro rest
    simp only [List.flatMap_nil, List.nil_append]
    exact parseStrBody_quote rest
  | cons c cs ih =>
    intro rest
    rw [List.flatMap_cons, List.append_assoc]
    by_cases h1 : c = '"'
    · subst h1
      rw [show escChar '"' = ['\\', '"'] from rfl]
      simp only [List.cons_append, List.nil_append]
      rw [show parseStrBody ('\\' :: '"' :: (cs.flatMap escChar ++ '"' :: rest)) =
          (parseStrBody (cs.flatMap escChar ++ '"' :: rest)).map
            (fun p => ('"' :: p.1, p.2)) by rw [parseStrBody.eq_def]; rfl]
      rw [ih rest]
      rfl
    · by_cases h2 : c = '\\'
      · subst h2
        rw [show escChar '\\' = ['\\', '\\'] from rfl]
        simp only [List.cons_append, List.nil_append]
        rw [show parseStrBody ('\\' :: '\\' :: (cs.flatMap escChar ++ '"' :: rest)) =
            (parseStrBody (cs.flatMap escChar ++ '"' :: rest)).map
              (fun p => ('\\' :: p.1, p.2)) by rw [parseStrBody.eq_def]; rfl]
        rw [ih rest]
        rfl
      · by_cases h3 : c = '\n'
        · subst h3
          rw [show escChar '\n' = ['\\', 'n'] from rfl]
          simp only [List.cons_append, List.nil_append]
          rw [show parseStrBody ('\\' :: 'n' :: (cs.flatMap escChar ++ '"' :: rest)) =
              (parseStrBody (cs.flatMap escChar ++ '"' :: rest)).map
                (fun p => ('\n' :: p.1, p.2)) by rw [parseStrBody.eq_def]; rfl]
          rw [ih rest]
          rfl
        · by_cases h4 : c = '\t'
          · subst h4
            rw [show escChar '\t' = ['\\', 't'] from rfl]
            simp only [List.cons_append, List.nil_append]
            rw [show parseStrBody ('\\' :: 't' :: (cs.flatMap escChar ++ '"' :: rest)) =
                (parseStrBody (cs.flatMap escChar ++ '"' :: rest)).map
                  (fun p => ('\t' :: p.1, p.2)) by rw [parseStrBody.eq_def]; rfl]
            rw [ih rest]
            rfl
          · by_cases h5 : c = '\r'
            · subst h5
              rw [show escChar '\r' = ['\\', 'r'] from rfl]
              simp only [List.cons_append, List.nil_append]
              rw [show parseStrBody ('\\' :: 'r' :: (cs.flatMap escChar ++ '"' :: rest)) =
                  (parseStrBody (cs.flatMap escChar ++ '"' :: rest)).map
                    (fun p => ('\r' :: p.1, p.2)) by rw [parseStrBody.eq_def]; rfl]
              rw [ih rest]
              rfl
            · by_cases h6 : c = '\x08'
              · subst h6
                rw [show escChar '\x08' = ['\\', 'b'] from rfl]
                simp only [List.cons_append, List.nil_append]
                rw [show parseStrBody ('\\' :: 'b' :: (cs.flatMap escChar ++ '"' :: rest)) =
                    (parseStrBody (cs.flatMap escChar ++ '"' :: rest)).map
                      (fun p => ('\x08' :: p.1, p.2)) by rw [parseStrBody.eq_def]; rfl]
                rw [ih rest]
                rfl
              · by_cases h7 : c = '\x0c'
                · subst h7
                  rw [show escChar '\x0c' = ['\\', 'f'] from rfl]
                  simp only [List.cons_append, List.nil_append]
                  rw [show parseStrBody ('\\' :: 'f' :: (cs.flatMap escChar ++ '"' :: rest)) =
                      (parseStrBody (cs.flatMap escChar ++ '"' :: rest)).map
                        (fun p => ('\x0c' :: p.1, p.2)) by rw [parseStrBody.eq_def]; rfl]
                  rw [ih rest]
                  rfl
                · by_cases h8 : c.toNat < 0x20
                  · have hesc : escChar c =
                        ['\\', 'u', '0', '0', hexDigitLower (c.toNat / 16),
                         hexDigitLower (c.toNat % 16)] := by
                      simp [escChar, h1, h2, h3, h4, h5, h6, h7, h8]
                    have hd1 : c.toNat / 16 < 16 := by omega
                    have hd2 : c.toNat % 16 < 16 := by omega
                    rw [hesc]
                    simp only [List.cons_append, List.nil_append]
                    rw [parseStrBody_hexEscape]
                    rw [if_pos (by simp [isHexDigit_hexDigitLower hd1,
                          isHexDigit_hexDigitLower hd2]; decide)]
                    rw [ih rest]
                    have hn : (((hexVal '0' * 16 + hexVal '0') * 16 +
                        hexVal (hexDigitLower (c.toNat / 16))) * 16 +
                        hexVal (hexDigitLower (c.toNat % 16))) = c.toNat := by
                      rw [hexVal_hexDigitLower hd1, hexVal_hexDigitLower hd2]
                      have h0 : hexVal '0' = 0 := by decide
                      rw [h0]
                      omega
                    rw [hn, char_ofNat_toNat (by omega)]
                    rfl
                  · have hesc : escChar c = [c] := by
                      simp [escChar, h1, h2, h3, h4, h5, h6, h7, h8]
                    rw [hesc]
                    simp only [List.cons_append, List.nil_append]
                    rw [parseStrBody_other h1 h2, ih rest]
                    rfl

theorem parseStrBody_quoteString (s : String) (rest : List Char) :
    parseStrBody (escapeString s ++ '"' :: rest) = some (s.data, rest) :=
  parseStrBody_escape s.data rest

/-- Inequality of characters from inequality of their code points. -/
theorem char_toNat_ne {c d : Char} (h : c.toNat ≠ d.toNat) : c ≠ d :=
  fun he => h (by rw [he])

theorem isJsonWs_toNat {c : Char} (h : isJsonWs c = true) :
    c.toNat = 32 ∨ c.toNat = 10 ∨ c.toNat = 9 ∨ c.toNat = 13 := by
  simp [isJsonWs] at h
  rcases h with ((h | h) | h) | h <;> subst h <;> decide

theorem isDigitChar_not_special {c : Char} (h : isDigitChar c = true) :
    c ≠ 'n' ∧ c ≠ 't' ∧ c ≠ 'f' ∧ c ≠ '"' ∧ c ≠ '[' ∧ c ≠ '\x7b' ∧ c ≠ '-' := by
  obtain ⟨hlo, hhi⟩ := isDigitChar_toNat h
  refine ⟨?_, ?_, ?_, ?_, ?_, ?_, ?_⟩ <;> apply char_toNat_ne
  · rw [show ('n' : Char).toNat = 110 from by decide]; omega
  · rw [show ('t' : Char).toNat = 116 from by decide]; omega
  · rw [show ('f' : Char).toNat = 102 from by decide]; omega
  · rw [show ('"' : Char).toNat = 34 from by decide]; omega
  · rw [show ('[' : Char).toNat = 91 from by decide]; omega
  · rw [show ('\x7b' : Char).toNat = 123 from by decide]; omega
  · rw [show ('-' : Char).toNat = 45 from by decide]; omega

theorem isDigitChar_not_ws {c : Char} (h : isDigitChar c = true) : isJsonWs c = false := by
  obtain ⟨hlo, hhi⟩ := isDigitChar_toNat h
  cases hjw : isJsonWs c with
  | false => rfl
  | true =>
    rcases isJsonWs_toNat hjw with hn | hn | hn | hn <;> omega

theorem isDigitChar_not_bracket {c : Char} (h : isDigitChar c = true) :
    c ≠ ']' ∧ c ≠ '\x7d' := by
  obtain ⟨hlo, hhi⟩ := isDigitChar_toNat h
  constructor <;> apply char_toNat_ne
  · rw [show (']' : Char).toNat = 93 from by decide]; omega
  · rw [show ('\x7d' : Char).toNat = 125 from by decide]; omega

/-- Characters that can start a printed JSON value. -/
def jsonStartChar (c : Char) : Prop :=
  c = 'n' ∨ c = 't' ∨ c = 'f' ∨ c = '"' ∨ c = '[' ∨ c = '\x7b' ∨ c = '-' ∨ isDigitChar c = true

theorem printNat_head (n : Nat) :
    ∃ c t, printNat n = c :: t ∧ isDigitChar c = true := by
  obtain ⟨c, t, h⟩ : ∃ c t, printNat n = c :: t := by
    cases hpn : printNat n with
    | nil => exact absurd hpn (printNat_ne_nil n)
    | cons c t => exact ⟨c, t, rfl⟩
  exact ⟨c, t, h, printNat_all_digits n c (by rw [h]; simp)⟩

theorem printAt_head (d : Nat) (j : Json) :
    ∃ c t, printAt d j = c :: t ∧ jsonStartChar c := by
  cases j with
  | null => exact ⟨'n', ['u', 'l', 'l'], by simp [printAt], Or.inl rfl⟩
  | bool b =>
    cases b with
    | true => exact ⟨'t', ['r', 'u', 'e'], by simp [printAt], Or.inr (Or.inl rfl)⟩
    | false =>
      exact ⟨'f', ['a', 'l', 's', 'e'], by simp [printAt], Or.inr (Or.inr (Or.inl rfl))⟩
  | num i =>
    by_cases hi : i < 0
    · refine ⟨'-', printNat i.natAbs, by simp [printAt, printInt, hi], ?_⟩
      right; right; right; right; right; right; left; rfl
    · obtain ⟨c, t, hct, hc⟩ := printNat_head i.toNat
      refine ⟨c, t, by simp [printAt, printInt, hi, hct], ?_⟩
      right; right; right; right; right; right; right; exact hc
  | str s =>
    exact ⟨'"', escapeString s ++ ['"'], by simp [printAt, quoteString], by
      right; right; right; left; rfl⟩
  | arr xs =>
    cases xs with
    | nil => exact ⟨'[', [']'], by simp [printAt], by right; right; right; right; left; rfl⟩
    | cons x tl =>
      exact ⟨'[', '\n' :: (printItems d (x :: tl) ++ '\n' :: (padChars d ++ [']'])),
        by simp [printAt], by right; right; right; right; left; rfl⟩
  | obj fs =>
    cases fs with
    | nil =>
      exact ⟨'\x7b', ['\x7d'], by simp [printAt], by
        right; right; right; right; right; left; rfl⟩
    | cons f tl =>
      exact ⟨'\x7b', '\n' :: (printFields d (f :: tl) ++ '\n' :: (padChars d ++ ['\x7d'])),
        by simp [printAt], by right; right; right; right; right; left; rfl⟩

theorem jsonStartChar_facts {c : Char} (h : jsonStartChar c) :
    isJsonWs c = false ∧ c ≠ ']' ∧ c ≠ '\x7d' := by
  rcases h with h | h | h | h | h | h | h | h
  · subst h; exact ⟨by decide, by decide, by decide⟩
  · subst h; exact ⟨by decide, by decide, by decide⟩
  · subst h; exact ⟨by decide, by decide, by decide⟩
  · subst h; exact ⟨by decide, by decide, by decide⟩
  · subst h; exact ⟨by decide, by decide, by decide⟩
  · subst h; exact ⟨by decide, by decide, by decide⟩
  · subst h; exact ⟨by decide, by decide, by decide⟩
  · exact ⟨isDigitChar_not_ws h, (isDigitChar_not_bracket h).1, (isDigitChar_not_bracket h).2⟩

/-- One-step unfolding of parseValue at positive fuel. -/
theorem parseValue_succ (f : Nat) (cs : List Char) :
    parseValue (f + 1) cs =
      (match skipWs cs with
       | [] => none
       | c :: r =>
         if c = 'n' then
           match r with
           | 'u' :: 'l' :: 'l' :: r2 => some (.null, r2)
           | _ => none
         else if c = 't' then
           match r with
           | 'r' :: 'u' :: 'e' :: r2 => some (.bool true, r2)
           | _ => none
         else if c = 'f' then
           match r with
           | 'a' :: 'l' :: 's' :: 'e' :: r2 => some (.bool false, r2)
           | _ => none
         else if c = '"' then (parseStrBody r).map (fun p => (.str (String.mk p.1), p.2))
         else if c = '[' then
           match skipWs r with
           | [] => none
           | c2 :: r2 =>
             if c2 = ']' then some (.arr [], r2)
             else (parseItems f (c2 :: r2)).map (fun p => (.arr p.1, p.2))
         else if c = '\x7b' then
           match skipWs r with
           | [] => none
           | c2 :: r2 =>
             if c2 = '\x7d' then some (.obj [], r2)
             else (parseObjFields f (c2 :: r2)).map (fun p => (.obj p.1, p.2))
         else if c = '-' then (parseNatNum r).map (fun p => (.num (-(Int.ofNat p.1)), p.2))
         else if isDigitChar c then
           (parseNatNum (c :: r)).map (fun p => (.num (Int.ofNat p.1), p.2))
         else none) := by
  rw [parseValue.eq_def]

/-- One-step unfolding of parseItems at positive fuel. -/
theorem parseItems_succ (f : Nat) (cs : List Char) :
    parseItems (f + 1) cs =
      (match parseValue f cs with
       | none => none
       | some (j, rest) =>
         match skipWs rest with
         | [] => none
         | c :: r =>
           if c = ',' then (parseItems f r).map (fun p => (j :: p.1, p.2))
           else if c = ']' then some ([j], r)
           else none) := by
  rw [parseItems.eq_def]

/-- One-step unfolding of parseObjFields at positive fuel. -/
theorem parseObjFields_succ (f : Nat) (cs : List Char) :
    parseObjFields (f + 1) cs =
      (match skipWs cs with
       | [] => none
       | c0 :: r =>
         if c0 = '"' then
           match parseStrBody r with
           | none => none
           | some (key, rest) =>
             match skipWs rest with
             | [] => none
             | c1 :: r2 =>
               if c1 = ':' then
                 match parseValue f r2 with
                 | none => none
                 | some (j, rest2) =>
                   match skipWs rest2 with
                   | [] => none
                   | c2 :: r3 =>
                     if c2 = ',' then
                       (parseObjFields f r3).map (fun p => ((String.mk key, j) :: p.1, p.2))
                     else if c2 = '\x7d' then some ([(String.mk key, j)], r3)
                     else none
               else none
         else none) := by
  rw [parseObjFields.eq_def]

/-- If two inputs agree after whitespace skipping, parseValue cannot
tell them apart. -/
theorem parseValue_ws {cs cs2 : List Char} (h : skipWs cs = skipWs cs2) :
    ∀ f, parseValue f cs = parseValue f cs2 := by
  intro f
  cases f with
  | zero => rfl
  | succ f => rw [parseValue_succ, parseValue_succ, h]

theorem parseItems_ws {cs cs2 : List Char} (h : skipWs cs = skipWs cs2) :
    ∀ f, parseItems f cs = parseItems f cs2 := by
  intro f
  cases f with
  | zero => rfl
  | succ f => rw [parseItems_succ, parseItems_succ, parseValue_ws h]

theorem parseObjFields_ws {cs cs2 : List Char} (h : skipWs cs = skipWs cs2) :
    ∀ f, parseObjFields f cs = parseObjFields f cs2 := by
  intro f
  cases f with
  | zero => rfl
  | succ f => rw [parseObjFields_succ, parseObjFields_succ, h]

theorem parseValue_step_null {cs : List Char} {r : List Char} (f : Nat)
    (h : skipWs cs = 'n' :: 'u' :: 'l' :: 'l' :: r) :
    parseValue (f + 1) cs = some (.null, r) := by
  rw [parseValue_succ, h]
  rfl

theorem parseValue_step_true {cs : List Char} {r : List Char} (f : Nat)
    (h : skipWs cs = 't' :: 'r' :: 'u' :: 'e' :: r) :
    parseValue (f + 1) cs = some (.bool true, r) := by
  rw [parseValue_succ, h]
  rfl

theorem parseValue_step_false {cs : List Char} {r : List Char} (f : Nat)
    (h : skipWs cs = 'f' :: 'a' :: 'l' :: 's' :: 'e' :: r) :
    parseValue (f + 1) cs = some (.bool false, r) := by
  rw [parseValue_succ, h]
  rfl

theorem parseValue_step_str {cs r : List Char} (f : Nat)
    (h : skipWs cs = '"' :: r) :
    parseValue (f + 1) cs = (parseStrBody r).map (fun p => (.str (String.mk p.1), p.2)) := by
  rw [parseValue_succ, h]
  rfl

theorem parseValue_step_arrNil {cs r r2 : List Char} (f : Nat)
    (h : skipWs cs = '[' :: r) (h2 : skipWs r = ']' :: r2) :
    parseValue (f + 1) cs = some (.arr [], r2) := by
  rw [parseValue_succ, h]
  show (match skipWs r with
        | [] => (none : Option (Json × List Char))
        | c2 :: r2 =>
          if c2 = ']' then some (.arr [], r2)
          else (parseItems f (c2 :: r2)).map (fun p => (.arr p.1, p.2))) = some (.arr [], r2)
  rw [h2]
  rfl

theorem parseValue_step_arrCons {cs r r2 : List Char} {c2 : Char} (f : Nat)
    (h : skipWs cs = '[' :: r) (h2 : skipWs r = c2 :: r2) (hne : c2 ≠ ']') :
    parseValue (f + 1) cs = (parseItems f (c2 :: r2)).map (fun p => (.arr p.1, p.2)) := by
  rw [parseValue_succ, h]
  show (match skipWs r with
        | [] => (none : Option (Json × List Char))
        | c2 :: r2 =>
          if c2 = ']' then some (.arr [], r2)
          else (parseItems f (c2 :: r2)).map (fun p => (.arr p.1, p.2))) =
      (parseItems f (c2 :: r2)).map (fun p => (.arr p.1, p.2))
  rw [h2]
  simp only [if_neg hne]

theorem parseValue_step_objNil {cs r r2 : List Char} (f : Nat)
    (h : skipWs cs = '\x7b' :: r) (h2 : skipWs r = '\x7d' :: r2) :
    parseValue (f + 1) cs = some (.obj [], r2) := by
  rw [parseValue_succ, h]
  show (match skipWs r with
        | [] => (none : Option (Json × List Char))
        | c2 :: r2 =>
          if c2 = '\x7d' then some (.obj [], r2)
          else (parseObjFields f (c2 :: r2)).map (fun p => (.obj p.1, p.2))) = some (.obj [], r2)
  rw [h2]
  rfl

theorem parseValue_step_objCons {cs r r2 : List Char} {c2 : Char} (f : Nat)
    (h : skipWs cs = '\x7b' :: r) (h2 : skipWs r = c2 :: r2) (hne : c2 ≠ '\x7d') :
    parseValue (f + 1) cs = (parseObjFields f (c2 :: r2)).map (fun p => (.obj p.1, p.2)) := by
  rw [parseValue_succ, h]
  show (match skipWs r with
        | [] => (none : Option (Json × List Char))
        | c2 :: r2 =>
          if c2 = '\x7d' then some (.obj [], r2)
          else (parseObjFields f (c2 :: r2)).map (fun p => (.obj p.1, p.2))) =
      (parseObjFields f (c2 :: r2)).map (fun p => (.obj p.1, p.2))
  rw [h2]
  simp only [if_neg hne]

theorem parseValue_step_neg {cs r : List Char} (f : Nat)
    (h : skipWs cs = '-' :: r) :
    parseValue (f + 1) cs = (parseNatNum r).map (fun p => (.num (-(Int.ofNat p.1)), p.2)) := by
  rw [parseValue_succ, h]
  rfl

theorem parseValue_step_digit {cs r : List Char} {c : Char} (f : Nat)
    (h : skipWs cs = c :: r) (hd : isDigitChar c = true) :
    parseValue (f + 1) cs = (parseNatNum (c :: r)).map (fun p => (.num (Int.ofNat p.1), p.2)) := by
  obtain ⟨n1, n2, n3, n4, n5, n6, n7⟩ := isDigitChar_not_special hd
  rw [parseValue_succ, h]
  simp only [if_neg n1, if_neg n2, if_neg n3, if_neg n4, if_neg n5, if_neg n6, if_neg n7,
    if_pos hd]

theorem parseItems_step {cs rest r : List Char} {j : Json} {c : Char} (f : Nat)
    (hpv : parseValue f cs = some (j, rest)) (hw : skipWs rest = c :: r) :
    parseItems (f + 1) cs =
      (if c = ',' then (parseItems f r).map (fun p => (j :: p.1, p.2))
       else if c = ']' then some ([j], r)
       else none) := by
  rw [parseItems_succ, hpv]
  simp only [hw]

theorem parseObjFields_step {cs r keyChars rest r2 rest2 r3 : List Char} {j : Json} {c2 : Char}
    (f : Nat)
    (h0 : skipWs cs = '"' :: r)
    (h1 : parseStrBody r = some (keyChars, rest))
    (h2 : skipWs rest = ':' :: r2)
    (h3 : parseValue f r2 = some (j, rest2))
    (h4 : skipWs rest2 = c2 :: r3) :
    parseObjFields (f + 1) cs =
      (if c2 = ',' then
        (parseObjFields f r3).map (fun p => ((String.mk keyChars, j) :: p.1, p.2))
       else if c2 = '\x7d' then some ([(String.mk keyChars, j)], r3)
       else none) := by
  rw [parseObjFields_succ, h0]
  simp only [h1, h2, h3, h4, if_true, eq_self_iff_true]

mutual

/-- Fuel sufficient for parseValue to parse the printed form of a
value. -/
def fuelV : Json → Nat
  | .null => 1
  | .bool _ => 1
  | .num _ => 1
  | .str _ => 1
  | .arr [] => 1
  | .arr (x :: xs) => 1 + fuelItems (x :: xs)
  | .obj [] => 1
  | .obj (f :: fs) => 1 + fuelFields (f :: fs)

/-- Fuel sufficient for parseItems on a printed entry list. -/
def fuelItems : List Json → Nat
  | [] => 1
  | [x] => 1 + fuelV x
  | x :: y :: xs => 1 + max (fuelV x) (fuelItems (y :: xs))

/-- Fuel sufficient for parseObjFields on a printed entry list. -/
def fuelFields : List (String × Json) → Nat
  | [] => 1
  | [(_, v)] => 1 + fuelV v
  | (_, v) :: g :: fs => 1 + max (fuelV v) (fuelFields (g :: fs))

end

/-- Round-trip property of one printed value. -/
def Pval (j : Json) : Prop :=
  ∀ d f rest, fuelV j ≤ f → noDigitStart rest →
    parseValue f (printAt d j ++ rest) = some (j, rest)

/-- Continuation of an entry list after its first printed entry. -/
def itemsTail (d : Nat) : List Json → List Char
  | [] => []
  | y :: tl => ',' :: '\n' :: printItems d (y :: tl)

theorem printItems_cons (d : Nat) (x : Json) (xs : List Json) :
    printItems d (x :: xs) = padChars (d + 1) ++ printAt (d + 1) x ++ itemsTail d xs := by
  cases xs with
  | nil => simp [printItems, itemsTail]
  | cons y tl => simp [printItems, itemsTail]

theorem parseItems_print (d : Nat) : ∀ (xs : List Json) (x : Json),
    Pval x → (∀ y ∈ xs, Pval y) → ∀ f rest, fuelItems (x :: xs) ≤ f →
    parseItems f (printAt (d + 1) x ++
        (itemsTail d xs ++ '\n' :: (padChars d ++ (']' :: rest)))) =
      some (x :: xs, rest) := by
  intro xs
  induction xs with
  | nil =>
    intro x hx _ f rest hf
    cases f with
    | zero => simp [fuelItems] at hf
    | succ f =>
      have hfx : fuelV x ≤ f := by simp [fuelItems] at hf; omega
      have hrest2 : noDigitStart ('\n' :: (padChars d ++ (']' :: rest))) := by
        intro c hc
        simp at hc
        subst hc
        decide
      have hpv : parseValue f (printAt (d + 1) x ++
          (itemsTail d [] ++ '\n' :: (padChars d ++ (']' :: rest)))) =
          some (x, '\n' :: (padChars d ++ (']' :: rest))) := by
        simp only [itemsTail, List.nil_append]
        exact hx (d + 1) f _ hfx hrest2
      have hw : skipWs ('\n' :: (padChars d ++ (']' :: rest))) = ']' :: rest := by
        rw [skipWs_cons_ws (by decide), skipWs_padChars, skipWs_cons_not_ws (by decide)]
      rw [parseItems_step f hpv hw]
      simp
  | cons y tl ih =>
    intro x hx hys f rest hf
    cases f with
    | zero => simp [fuelItems] at hf
    | succ f =>
      have hfx : fuelV x ≤ f := by simp [fuelItems] at hf; omega
      have hfyt : fuelItems (y :: tl) ≤ f := by simp [fuelItems] at hf; omega
      have hrest2 : noDigitStart (',' :: ('\n' :: printItems d (y :: tl) ++
          '\n' :: (padChars d ++ (']' :: rest)))) := by
        intro c hc
        simp at hc
        subst hc
        decide
      have hpv : parseValue f (printAt (d + 1) x ++
          (itemsTail d (y :: tl) ++ '\n' :: (padChars d ++ (']' :: rest)))) =
          some (x, ',' :: ('\n' :: printItems d (y :: tl) ++
            '\n' :: (padChars d ++ (']' :: rest)))) := by
        simp only [itemsTail, List.cons_append, List.append_assoc]
        exact hx (d + 1) f _ hfx hrest2
      have hw : skipWs (',' :: ('\n' :: printItems d (y :: tl) ++
          '\n' :: (padChars d ++ (']' :: rest)))) = ',' :: ('\n' :: printItems d (y :: tl) ++
          '\n' :: (padChars d ++ (']' :: rest))) :=
        skipWs_cons_not_ws (by decide) _
      rw [parseItems_step f hpv hw]
      rw [if_pos rfl]
      have hinner : parseItems f ('\n' :: printItems d (y :: tl) ++
          '\n' :: (padChars d ++ (']' :: rest))) =
          parseItems f (printAt (d + 1) y ++
            (itemsTail d tl ++ '\n' :: (padChars d ++ (']' :: rest)))) := by
        apply parseItems_ws
        rw [List.cons_append, skipWs_cons_ws (by decide)]
        rw [printItems_cons, List.append_assoc, List.append_assoc, skipWs_padChars]
      rw [hinner]
      rw [ih y (hys y (by simp)) (fun z hz => hys z (by simp [hz])) f rest hfyt]
      rfl

/-- Continuation of an object entry list after its first printed
entry. -/
def fieldsTail (d : Nat) : List (String × Json) → List Char
  | [] => []
  | g :: tl => ',' :: '\n' :: printFields d (g :: tl)

theorem printFields_cons (d : Nat) (k : String) (v : Json) (fs : List (String × Json)) :
    printFields d ((k, v) :: fs) =
      padChars (d + 1) ++ quoteString k ++ ':' :: ' ' :: printAt (d + 1) v ++ fieldsTail d fs := by
  cases fs with
  | nil => simp [printFields, fieldsTail]
  | cons g tl => simp [printFields, fieldsTail]

theorem parseObjFields_print (d : Nat) : ∀ (fs : List (String × Json)) (k : String) (v : Json),
    Pval v → (∀ kv ∈ fs, Pval kv.2) → ∀ f rest, fuelFields ((k, v) :: fs) ≤ f →
    parseObjFields f (quoteString k ++ ':' :: ' ' :: printAt (d + 1) v ++
        (fieldsTail d fs ++ '\n' :: (padChars d ++ ('\x7d' :: rest)))) =
      some ((k, v) :: fs, rest) := by
  intro fs
  induction fs with
  | nil =>
    intro k v hv _ f rest hf
    cases f with
    | zero => simp [fuelFields] at hf
    | succ f =>
      have hfv : fuelV v ≤ f := by simp [fuelFields] at hf; omega
      have h0 : skipWs (quoteString k ++ ':' :: ' ' :: printAt (d + 1) v ++
          (fieldsTail d [] ++ '\n' :: (padChars d ++ ('\x7d' :: rest)))) =
          '"' :: (escapeString k ++ '"' :: (':' :: ' ' :: printAt (d + 1) v ++
            ('\n' :: (padChars d ++ ('\x7d' :: rest))))) := by
        simp only [quoteString, fieldsTail, List.nil_append, List.cons_append, List.append_assoc]
        rw [skipWs_cons_not_ws (by decide)]
      have h1 : parseStrBody (escapeString k ++ '"' :: (':' :: ' ' :: printAt (d + 1) v ++
          ('\n' :: (padChars d ++ ('\x7d' :: rest))))) =
          some (k.data, ':' :: ' ' :: printAt (d + 1) v ++
            ('\n' :: (padChars d ++ ('\x7d' :: rest)))) :=
        parseStrBody_quoteString k _
      have h2 : skipWs (':' :: ' ' :: printAt (d + 1) v ++
          ('\n' :: (padChars d ++ ('\x7d' :: rest)))) =
          ':' :: (' ' :: printAt (d + 1) v ++ ('\n' :: (padChars d ++ ('\x7d' :: rest)))) := by
        rw [List.cons_append, skipWs_cons_not_ws (by decide)]
      have hnds : noDigitStart ('\n' :: (padChars d ++ ('\x7d' :: rest))) := by
        intro c hc
        simp at hc
        subst hc
        decide
      have h3 : parseValue f (' ' :: printAt (d + 1) v ++
          ('\n' :: (padChars d ++ ('\x7d' :: rest)))) =
          some (v, '\n' :: (padChars d ++ ('\x7d' :: rest))) := by
        rw [List.cons_append]
        have hws : parseValue f (' ' :: (printAt (d + 1) v ++
            ('\n' :: (padChars d ++ ('\x7d' :: rest))))) =
            parseValue f (printAt (d + 1) v ++ ('\n' :: (padChars d ++ ('\x7d' :: rest)))) :=
          parseValue_ws (by rw [skipWs_cons_ws (by decide)]) f
        rw [hws]
        exact hv (d + 1) f _ hfv hnds
      have h4 : skipWs ('\n' :: (padChars d ++ ('\x7d' :: rest))) = '\x7d' :: rest := by
        rw [skipWs_cons_ws (by decide), skipWs_padChars, skipWs_cons_not_ws (by decide)]
      rw [parseObjFields_step f h0 h1 h2 h3 h4]
      have hmk : String.mk k.data = k := rfl
      simp [hmk]
  | cons g tl ih =>
    intro k v hv hfs f rest hf
    cases f with
    | zero => simp [fuelFields] at hf
    | succ f =>
      have hfv : fuelV v ≤ f := by simp [fuelFields] at hf; omega
      have hfgt : fuelFields (g :: tl) ≤ f := by simp [fuelFields] at hf; omega
      have h0 : skipWs (quoteString k ++ ':' :: ' ' :: printAt (d + 1) v ++
          (fieldsTail d (g :: tl) ++ '\n' :: (padChars d ++ ('\x7d' :: rest)))) =
          '"' :: (escapeString k ++ '"' :: (':' :: ' ' :: printAt (d + 1) v ++
            (',' :: '\n' :: printFields d (g :: tl) ++
              '\n' :: (padChars d ++ ('\x7d' :: rest))))) := by
        simp only [quoteString, fieldsTail, List.nil_append, List.cons_append, List.append_assoc]
        rw [skipWs_cons_not_ws (by decide)]
      have h1 : parseStrBody (escapeString k ++ '"' :: (':' :: ' ' :: printAt (d + 1) v ++
          (',' :: '\n' :: printFields d (g :: tl) ++
            '\n' :: (padChars d ++ ('\x7d' :: rest))))) =
          some (k.data, ':' :: ' ' :: printAt (d + 1) v ++
            (',' :: '\n' :: printFields d (g :: tl) ++
              '\n' :: (padChars d ++ ('\x7d' :: rest)))) :=
        parseStrBody_quoteString k _
      have h2 : skipWs (':' :: ' ' :: printAt (d + 1) v ++
          (',' :: '\n' :: printFields d (g :: tl) ++
            '\n' :: (padChars d ++ ('\x7d' :: rest)))) =
          ':' :: (' ' :: printAt (d + 1) v ++
            (',' :: '\n' :: printFields d (g :: tl) ++
              '\n' :: (padChars d ++ ('\x7d' :: rest)))) := by
        rw [List.cons_append, skipWs_cons_not_ws (by decide)]
      have hnds : noDigitStart (',' :: '\n' :: printFields d (g :: tl) ++
          '\n' :: (padChars d ++ ('\x7d' :: rest))) := by
        intro c hc
        simp at hc
        subst hc
        decide
      have h3 : parseValue f (' ' :: printAt (d + 1) v ++
          (',' :: '\n' :: printFields d (g :: tl) ++
            '\n' :: (padChars d ++ ('\x7d' :: rest)))) =
          some (v, ',' :: '\n' :: printFields d (g :: tl) ++
            '\n' :: (padChars d ++ ('\x7d' :: rest))) := by
        rw [List.cons_append]
        have hws : parseValue f (' ' :: (printAt (d + 1) v ++
            (',' :: '\n' :: printFields d (g :: tl) ++
              '\n' :: (padChars d ++ ('\x7d' :: rest))))) =
            parseValue f (printAt (d + 1) v ++
              (',' :: '\n' :: printFields d (g :: tl) ++
                '\n' :: (padChars d ++ ('\x7d' :: rest)))) :=
          parseValue_ws (by rw [skipWs_cons_ws (by decide)]) f
        rw [hws]
        exact hv (d + 1) f _ hfv hnds
      have h4 : skipWs (',' :: '\n' :: printFields d (g :: tl) ++
          '\n' :: (padChars d ++ ('\x7d' :: rest))) =
          ',' :: ('\n' :: printFields d (g :: tl) ++
            '\n' :: (padChars d ++ ('\x7d' :: rest))) := by
        rw [List.cons_append, skipWs_cons_not_ws (by decide)]
      rw [parseObjFields_step f h0 h1 h2 h3 h4]
      rw [if_pos rfl]
      obtain ⟨gk, gv⟩ := g
      have hinner : parseObjFields f ('\n' :: printFields d ((gk, gv) :: tl) ++
          '\n' :: (padChars d ++ ('\x7d' :: rest))) =
          parseObjFields f (quoteString gk ++ ':' :: ' ' :: printAt (d + 1) gv ++
            (fieldsTail d tl ++ '\n' :: (padChars d ++ ('\x7d' :: rest)))) := by
        apply parseObjFields_ws
        rw [List.cons_append, skipWs_cons_ws (by decide)]
        rw [printFields_cons]
        simp only [List.append_assoc, List.cons_append]
        rw [skipWs_padChars]
      rw [hinner]
      rw [ih gk gv (hfs (gk, gv) (by simp)) (fun z hz => hfs z (by simp [hz])) f rest hfgt]
      have hmk : String.mk k.data = k := rfl
      simp [hmk]

theorem parseValue_printAt : ∀ j, Pval j := by
  intro j
  induction j using Json.inductionOn with
  | hnull =>
    intro d f rest hf hnd
    cases f with
    | zero => simp [fuelV] at hf
    | succ f =>
      rw [show printAt d Json.null ++ rest = 'n' :: ('u' :: 'l' :: 'l' :: rest) by
        simp [printAt]]
      exact parseValue_step_null f (skipWs_cons_not_ws (by decide) _)
  | hbool b =>
    intro d f rest hf hnd
    cases f with
    | zero => simp [fuelV] at hf
    | succ f =>
      cases b with
      | true =>
        rw [show printAt d (Json.bool true) ++ rest = 't' :: ('r' :: 'u' :: 'e' :: rest) by
          simp [printAt]]
        exact parseValue_step_true f (skipWs_cons_not_ws (by decide) _)
      | false =>
        rw [show printAt d (Json.bool false) ++ rest =
            'f' :: ('a' :: 'l' :: 's' :: 'e' :: rest) by simp [printAt]]
        exact parseValue_step_false f (skipWs_cons_not_ws (by decide) _)
  | hnum i =>
    intro d f rest hf hnd
    cases f with
    | zero => simp [fuelV] at hf
    | succ f =>
      by_cases hi : i < 0
      · rw [show printAt d (Json.num i) ++ rest = '-' :: (printNat i.natAbs ++ rest) by
          simp [printAt, printInt, hi]]
        rw [parseValue_step_neg f (skipWs_cons_not_ws (by decide) _)]
        rw [parseNatNum_printNat _ _ hnd]
        have hni : -(Int.ofNat i.natAbs) = i := by
          have hoc : (Int.ofNat i.natAbs : Int) = (i.natAbs : Int) := rfl
          rw [hoc]
          omega
        show some (Json.num (-(Int.ofNat i.natAbs)), rest) = some (Json.num i, rest)
        rw [hni]
      · obtain ⟨c, t, hct, hc⟩ := printNat_head i.toNat
        have hp : printAt d (Json.num i) ++ rest = c :: (t ++ rest) := by
          simp [printAt, printInt, hi, hct]
        rw [hp]
        rw [parseValue_step_digit f (skipWs_cons_not_ws (isDigitChar_not_ws hc) _) hc]
        rw [show c :: (t ++ rest) = printNat i.toNat ++ rest by rw [hct]; rfl]
        rw [parseNatNum_printNat _ _ hnd]
        have hni : Int.ofNat i.toNat = i := by
          have hoc : (Int.ofNat i.toNat : Int) = (i.toNat : Int) := rfl
          rw [hoc]
          omega
        show some (Json.num (Int.ofNat i.toNat), rest) = some (Json.num i, rest)
        rw [hni]
  | hstr s =>
    intro d f rest hf hnd
    cases f with
    | zero => simp [fuelV] at hf
    | succ f =>
      rw [show printAt d (Json.str s) ++ rest = '"' :: (escapeString s ++ '"' :: rest) by
        simp [printAt, quoteString]]
      rw [parseValue_step_str f (skipWs_cons_not_ws (by decide) _)]
      rw [parseStrBody_quoteString]
      rfl
  | harr xs ih =>
    intro d f rest hf hnd
    cases xs with
    | nil =>
      cases f with
      | zero => simp [fuelV] at hf
      | succ f =>
        rw [show printAt d (Json.arr []) ++ rest = '[' :: (']' :: rest) by simp [printAt]]
        exact parseValue_step_arrNil f (skipWs_cons_not_ws (by decide) _)
          (skipWs_cons_not_ws (by decide) _)
    | cons x tl =>
      cases f with
      | zero => simp [fuelV] at hf
      | succ f =>
        have hfi : fuelItems (x :: tl) ≤ f := by
          simp [fuelV] at hf; omega
        obtain ⟨c2, t2, hct2, hstart⟩ := printAt_head (d + 1) x
        obtain ⟨hnw, hnb, _⟩ := jsonStartChar_facts hstart
        have hp : printAt d (Json.arr (x :: tl)) ++ rest =
            '[' :: ('\n' :: (printItems d (x :: tl) ++
              '\n' :: (padChars d ++ (']' :: rest)))) := by
          simp [printAt]
        rw [hp]
        have hw1 : skipWs ('[' :: ('\n' :: (printItems d (x :: tl) ++
            '\n' :: (padChars d ++ (']' :: rest))))) =
            '[' :: ('\n' :: (printItems d (x :: tl) ++
              '\n' :: (padChars d ++ (']' :: rest)))) :=
          skipWs_cons_not_ws (by decide) _
        have hw2 : skipWs ('\n' :: (printItems d (x :: tl) ++
            '\n' :: (padChars d ++ (']' :: rest)))) =
            c2 :: (t2 ++ (itemsTail d tl ++ '\n' :: (padChars d ++ (']' :: rest)))) := by
          rw [skipWs_cons_ws (by decide)]
          rw [printItems_cons]
          simp only [List.append_assoc]
          rw [skipWs_padChars]
          rw [hct2]
          rw [List.cons_append]
          rw [skipWs_cons_not_ws hnw]
        rw [parseValue_step_arrCons f hw1 hw2 hnb]
        rw [show c2 :: (t2 ++ (itemsTail d tl ++ '\n' :: (padChars d ++ (']' :: rest)))) =
            printAt (d + 1) x ++ (itemsTail d tl ++ '\n' :: (padChars d ++ (']' :: rest))) by
          rw [hct2]; rfl]
        rw [parseItems_print d tl x (ih x (by simp)) (fun y hy => ih y (by simp [hy]))
          f rest hfi]
        rfl
  | hobj fs ih =>
    intro d f rest hf hnd
    cases fs with
    | nil =>
      cases f with
      | zero => simp [fuelV] at hf
      | succ f =>
        rw [show printAt d (Json.obj []) ++ rest = '\x7b' :: ('\x7d' :: rest) by
          simp [printAt]]
        exact parseValue_step_objNil f (skipWs_cons_not_ws (by decide) _)
          (skipWs_cons_not_ws (by decide) _)
    | cons g tl =>
      obtain ⟨k, v⟩ := g
      cases f with
      | zero => simp [fuelV] at hf
      | succ f =>
        have hfi : fuelFields ((k, v) :: tl) ≤ f := by
          simp [fuelV] at hf; omega
        have hp : printAt d (Json.obj ((k, v) :: tl)) ++ rest =
            '\x7b' :: ('\n' :: (printFields d ((k, v) :: tl) ++
              '\n' :: (padChars d ++ ('\x7d' :: rest)))) := by
          simp [printAt]
        rw [hp]
        have hw1 : skipWs ('\x7b' :: ('\n' :: (printFields d ((k, v) :: tl) ++
            '\n' :: (padChars d ++ ('\x7d' :: rest))))) =
            '\x7b' :: ('\n' :: (printFields d ((k, v) :: tl) ++
              '\n' :: (padChars d ++ ('\x7d' :: rest)))) :=
          skipWs_cons_not_ws (by decide) _
        have hw2 : skipWs ('\n' :: (printFields d ((k, v) :: tl) ++
            '\n' :: (padChars d ++ ('\x7d' :: rest)))) =
            '"' :: ((escapeString k ++ '"' :: (':' :: ' ' :: printAt (d + 1) v ++
              (fieldsTail d tl ++ '\n' :: (padChars d ++ ('\x7d' :: rest)))))) := by
          rw [skipWs_cons_ws (by decide)]
          rw [printFields_cons]
          simp only [List.append_assoc]
          rw [skipWs_padChars]
          simp only [quoteString, List.cons_append, List.append_assoc]
          rw [skipWs_cons_not_ws (by decide)]
          simp
        rw [parseValue_step_objCons f hw1 hw2 (by decide)]
        rw [show '"' :: ((escapeString k ++ '"' :: (':' :: ' ' :: printAt (d + 1) v ++
            (fieldsTail d tl ++ '\n' :: (padChars d ++ ('\x7d' :: rest)))))) =
            quoteString k ++ ':' :: ' ' :: printAt (d + 1) v ++
              (fieldsTail d tl ++ '\n' :: (padChars d ++ ('\x7d' :: rest))) by
          simp [quoteString]]
        rw [parseObjFields_print d tl k v (ih (k, v) (by simp))
          (fun z hz => ih z (by simp [hz])) f rest hfi]
        rfl


theorem padChars_length (d : Nat) : (padChars d).length = 2 * d := by
  simp [padChars]

theorem fuelItems_le_aux : ∀ (xs : List Json) (x : Json),
    (∀ y ∈ x :: xs, ∀ d, fuelV y ≤ (printAt d y).length + 1) →
    ∀ d, fuelItems (x :: xs) ≤ (printItems d (x :: xs)).length + 1 := by
  intro xs
  induction xs with
  | nil =>
    intro x h d
    have hx := h x (by simp) (d + 1)
    simp [fuelItems, printItems, padChars_length]
    omega
  | cons y tl ih =>
    intro x h d
    have hx := h x (by simp) (d + 1)
    have hrest := ih y (fun z hz => h z (by simp at hz; rcases hz with hz | hz <;> simp [hz])) d
    rw [printItems_cons d x (y :: tl)]
    simp only [fuelItems, itemsTail, List.length_append, List.length_cons, padChars_length]
    omega

theorem fuelFields_le_aux : ∀ (fs : List (String × Json)) (k : String) (v : Json),
    (∀ kv ∈ (k, v) :: fs, ∀ d, fuelV kv.2 ≤ (printAt d kv.2).length + 1) →
    ∀ d, fuelFields ((k, v) :: fs) ≤ (printFields d ((k, v) :: fs)).length + 1 := by
  intro fs
  induction fs with
  | nil =>
    intro k v h d
    have hx : fuelV v ≤ (printAt (d + 1) v).length + 1 := h (k, v) (by simp) (d + 1)
    simp [fuelFields, printFields, padChars_length] at hx ⊢
    omega
  | cons g tl ih =>
    intro k v h d
    obtain ⟨gk, gv⟩ := g
    have hx : fuelV v ≤ (printAt (d + 1) v).length + 1 := h (k, v) (by simp) (d + 1)
    have hrest := ih gk gv (fun z hz => h z (by simp at hz ⊢; tauto)) d
    rw [printFields_cons d k v ((gk, gv) :: tl)]
    simp only [fuelFields, fieldsTail, List.length_append, List.length_cons, padChars_length,
      quoteString]
    omega

theorem fuelV_le (j : Json) : ∀ d, fuelV j ≤ (printAt d j).length + 1 := by
  induction j using Json.inductionOn with
  | hnull => intro d; simp [fuelV, printAt]
  | hbool b => intro d; cases b <;> simp [fuelV, printAt]
  | hnum i => intro d; simp [fuelV, printAt]
  | hstr s => intro d; simp [fuelV, printAt]
  | harr xs ih =>
    intro d
    cases xs with
    | nil => simp [fuelV, printAt]
    | cons x tl =>
      have := fuelItems_le_aux tl x (fun y hy => ih y hy) d
      simp [fuelV, printAt, padChars_length] at this ⊢
      omega
  | hobj fs ih =>
    intro d
    cases fs with
    | nil => simp [fuelV, printAt]
    | cons g tl =>
      obtain ⟨gk, gv⟩ := g
      have := fuelFields_le_aux tl gk gv (fun kv hkv => ih kv hkv) d
      simp [fuelV, printAt, padChars_length] at this ⊢
      omega

/-- The platform JSON model is a left inverse of the pretty printer:
parsing a stringified value gives it back. -/
theorem parseJson_stringify (j : Json) : parseJson (stringify j) = some j := by
  have hlen : fuelV j ≤ (printAt 0 j).length + 1 := fuelV_le j 0
  have h := parseValue_printAt j 0 ((printAt 0 j).length + 1) [] hlen
    (by intro c hc; simp at hc)
  rw [List.append_nil] at h
  have hdata : (stringify j).data = printAt 0 j := rfl
  simp [parseJson, hdata, h, skipWs]

/-! ## Export orchestrator (handleExport, src/components/ExportPanel.jsx)

The orchestrator sequences fetch, convert and commit per selected
entity.  fetchEntityData and createOrUpdateFile are network-bound, so
the environment carries them as oracles: fetch maps an entity name to
its fetched records or a thrown message, and commit maps the file
path, content and commit message of the PUT to its outcome.  The
ambient Date and the connection settings are explicit fields. -/

/-- Export format chosen in the panel. -/
inductive ExportFormat where
  | json
  | csv
  deriving Repr, DecidableEq

/-- Status of one entity in the result table. -/
inductive ExpStatus where
  | success
  | skipped
  | error
  deriving Repr, DecidableEq

/-- One entry of the results list pushed by handleExport. -/
structure ExportResult where
  entity : String
  status : ExpStatus
  recordCount : Nat
  message : Option String
  filename : Option String
  path : Option String
  deriving Repr, DecidableEq

/-- Collaborators and ambient state of one handleExport run. -/
structure OrchestratorEnv where
  fetch : String → Except String (List Json)
  commit : String → String → String → Except String Unit
  now : String
  format : ExportFormat
  folder : String

/-- Content and filename for one entity, per the chosen format. -/
def exportContent (env : OrchestratorEnv) (entityName : String) (records : List Json) :
    String × String :=
  match env.format with
  | .csv => (recordsToCsv records, generateFilename env.now entityName "csv")
  | .json => (recordsToJson env.now records entityName, generateFilename env.now entityName "json")

/-- Destination path: the configured folder plus the filename, or the
bare filename when the folder setting is falsy. -/
def exportPath (env : OrchestratorEnv) (filename : String) : String :=
  if env.folder ≠ "" then env.folder ++ "/" ++ filename else filename

/-- Commit message built by handleExport. -/
def exportCommitMessage (entityName : String) (count : Nat) : String :=
  "Export " ++ entityName ++ " - " ++ toString count ++ " records"

/-- Body of one iteration of the handleExport loop: the try block
around fetch, convert and commit, and the catch that records an error
Result.  Zero records short-circuit to a skipped Result with no commit
call. -/
def processEntity (env : OrchestratorEnv) (entityName : String) : ExportResult :=
  match env.fetch entityName with
  | .error e =>
    { entity := entityName, status := .error, recordCount := 0,
      message := some e, filename := none, path := none }
  | .ok records =>
    if records.length = 0 then
      { entity := entityName, status := .skipped, recordCount := 0,
        message := some "No records found", filename := none, path := none }
    else
      let (content, filename) := exportContent env entityName records
      let filePath := exportPath env filename
      match env.commit filePath content (exportCommitMessage entityName records.length) with
      | .error e =>
        { entity := entityName, status := .error, recordCount := 0,
          message := some e, filename := none, path := none }
      | .ok _ =>
        { entity := entityName, status := .success, recordCount := records.length,
          message := none, filename := some filename, path := some filePath }

/-- Embedding of the handleExport loop over the selected entities: one
Result is pushed per entity, in selection order, and a failure inside
one iteration is caught there, never aborting the remaining
entities. -/
def handleExport (env : OrchestratorEnv) : List String → List ExportResult
  | [] => []
  | e :: rest => processEntity env e :: handleExport env rest


theorem isPrefixOf_append_self : ∀ (l t : List Char), l.isPrefixOf (l ++ t) = true := by
  intro l t
  induction l with
  | nil => simp [List.isPrefixOf]
  | cons c cs ih => simp [List.isPrefixOf, ih]

theorem strStartsWith_append (p x : String) : strStartsWith (p ++ x) p = true := by
  have hd : (p ++ x).data = p.data ++ x.data := by
    cases p; cases x; rfl
  simp [strStartsWith, hd, isPrefixOf_append_self]

/-- Counterexample to claim C1: the input "https://evil.example.com"
has a hostname that ends with none of the trusted domain suffixes, yet
validateD365Url returns the normalized base URL instead of none — the
allowlist check only logs a warning. -/
theorem validateD365Url_allows_untrusted_host :
    validateD365Url "https://evil.example.com" = some "https://evil.example.com" ∧
    trustedDomains.all (fun dom => !strEndsWith "evil.example.com" dom) = true := by
  constructor
  · decide
  · decide

/-- Claim C1 (amended): validateD365Url returns the normalized
https-scheme base URL for every non-empty input whose normalized form
parses as a URL, regardless of allowlist membership, and returns none
exactly for the empty input or a parse failure. -/
theorem validateD365Url_amended :
    (∀ url u, parseUrl (normalizeD365Url url) = some u → url ≠ "" →
      validateD365Url url = some ("https://" ++ u.hostString) ∧
      strStartsWith ("https://" ++ u.hostString) "https://" = true) ∧
    (∀ url, url ≠ "" → parseUrl (normalizeD365Url url) = none → validateD365Url url = none) ∧
    validateD365Url "" = none := by
  refine ⟨?_, ?_, by decide⟩
  · intro url u hu hne
    constructor
    · simp [validateD365Url, hne, hu]
    · exact strStartsWith_append "https://" u.hostString
  · intro url hne hp
    simp [validateD365Url, hne, hp]

/-- Witness for claim C1 at the concrete inputs
"https://evil.example.com" (parseable, untrusted host) and "https://"
(parse failure). -/
theorem validateD365Url_amended_witness :
    (parseUrl (normalizeD365Url "https://evil.example.com") =
        some { hostname := "evil.example.com", port := none } ∧
      "https://evil.example.com" ≠ "" ∧
      validateD365Url "https://evil.example.com" = some "https://evil.example.com") ∧
    ("https://" ≠ "" ∧ parseUrl (normalizeD365Url "https://") = none ∧
      validateD365Url "https://" = none) := by
  refine ⟨⟨by decide, by decide, ?_⟩, ⟨by decide, by decide, ?_⟩⟩
  · have h := validateD365Url_amended.1 "https://evil.example.com"
      { hostname := "evil.example.com", port := none } (by decide) (by decide)
    exact h.1
  · exact validateD365Url_amended.2.1 "https://" (by decide) (by decide)


/-- Base URL and mock servers used by the pagination theorems. -/
def mockBase : String := "https://test.operations.dynamics.com"

/-- Initial request URL of the 3-page mock without a cap. -/
def mockUrl1 : String := buildEntityUrl mockBase "Customers" {}

/-- Continuation URLs served by the 3-page mock. -/
def mockUrl2 : String := mockBase ++ "/data/Customers?page=2"

def mockUrl3 : String := mockBase ++ "/data/Customers?page=3"

/-- Mock collection endpoint: 3 pages of 2 records each, with a
continuation link on pages 1 and 2 and none on page 3. -/
def mockServer3 : String → DResp Nat := fun u =>
  if u = mockUrl1 then .success ⟨[1, 2], some mockUrl2⟩
  else if u = mockUrl2 then .success ⟨[3, 4], some mockUrl3⟩
  else if u = mockUrl3 then .success ⟨[5, 6], none⟩
  else .failure 404

/-- Mock endpoint that always returns a continuation link. -/
def mockServerInfinite : String → DResp Nat := fun _ =>
  .success ⟨[7], some mockUrl1⟩

set_option maxRecDepth 40000

/-- Counterexample to claim C3: on a server that always returns a
continuation link and with no record cap, fetchEntityData performs 101
page requests, not 100, because the page ceiling is checked only after
each fetch. -/
theorem fetchEntityData_101_requests :
    (fetchEntityData mockServerInfinite mockBase "Customers" {}).toOption.map
        (fun o => (o.records.length, o.requests.length)) = some (101, 101) ∧
    some ((101 : Nat), (101 : Nat)) ≠ some (100, 100) := by
  constructor
  · rfl
  · decide


theorem fetchLoop_zero {α : Type} (server : String → DResp α) (name : String) (top : Option Nat)
    (url : String) (pageCount : Nat) (acc : List α) (events : List ProgEvent)
    (requests : List String) :
    fetchLoop server name top 0 url pageCount acc events requests = .ok (acc, events, requests) :=
  rfl

theorem fetchLoop_succ {α : Type} (server : String → DResp α) (name : String) (top : Option Nat)
    (f : Nat) (url : String) (pageCount : Nat) (acc : List α) (events : List ProgEvent)
    (requests : List String) :
    fetchLoop server name top (f + 1) url pageCount acc events requests =
      (if url = "" then .ok (acc, events, requests)
       else
         match server url with
         | .failure status =>
           .error ("Failed to fetch " ++ name ++ ": " ++ toString status)
         | .success page =>
           match top with
           | some t =>
             if t ≠ 0 && t ≤ (acc ++ page.value).length then
               .ok ((acc ++ page.value).take t,
                 events ++ [.fetching (pageCount + 1) acc.length], requests ++ [url])
             else if pageCount + 1 > 100 then
               .ok (acc ++ page.value,
                 events ++ [.fetching (pageCount + 1) acc.length], requests ++ [url])
             else
               fetchLoop server name top f (page.nextLink.getD "") (pageCount + 1)
                 (acc ++ page.value) (events ++ [.fetching (pageCount + 1) acc.length])
                 (requests ++ [url])
           | none =>
             if pageCount + 1 > 100 then
               .ok (acc ++ page.value,
                 events ++ [.fetching (pageCount + 1) acc.length], requests ++ [url])
             else
               fetchLoop server name top f (page.nextLink.getD "") (pageCount + 1)
                 (acc ++ page.value) (events ++ [.fetching (pageCount + 1) acc.length])
                 (requests ++ [url])) := by
  rw [fetchLoop.eq_def]

theorem fetchLoop_always_next {α : Type} (server : String → DResp α) (name : String)
    (hs : ∀ u, ∃ p, server u = .success p ∧ ∃ s, p.nextLink = some s ∧ s ≠ "") :
    ∀ (f : Nat) (pageCount : Nat) (url : String) (acc : List α) (events : List ProgEvent)
      (requests : List String), url ≠ "" → f + pageCount = 101 →
    ∃ recs evs reqs,
      fetchLoop server name none f url pageCount acc events requests = .ok (recs, evs, reqs) ∧
      reqs.length = requests.length + f := by
  intro f
  induction f with
  | zero =>
    intro pageCount url acc events requests hurl hsum
    exact ⟨acc, events, requests, fetchLoop_zero server name none url pageCount acc events requests,
      by omega⟩
  | succ f ih =>
    intro pageCount url acc events requests hurl hsum
    obtain ⟨p, hp, s, hs1, hs2⟩ := hs url
    rw [fetchLoop_succ, if_neg hurl, hp]
    show ∃ recs evs reqs,
      (if pageCount + 1 > 100 then
        Except.ok (acc ++ p.value, events ++ [ProgEvent.fetching (pageCount + 1) acc.length],
          requests ++ [url])
      else
        fetchLoop server name none f (p.nextLink.getD "") (pageCount + 1) (acc ++ p.value)
          (events ++ [ProgEvent.fetching (pageCount + 1) acc.length])
          (requests ++ [url])) = Except.ok (recs, evs, reqs) ∧
      reqs.length = requests.length + (f + 1)
    by_cases hpc : pageCount + 1 > 100
    · rw [if_pos hpc]
      refine ⟨_, _, _, rfl, ?_⟩
      simp
      omega
    · have hf0 : f + (pageCount + 1) = 101 := by omega
      have hs3 : p.nextLink.getD "" = s := by rw [hs1]; rfl
      rw [if_neg hpc, hs3]
      obtain ⟨recs, evs, reqs, hloop, hlen⟩ :=
        ih (pageCount + 1) s (acc ++ p.value)
          (events ++ [.fetching (pageCount + 1) acc.length]) (requests ++ [url]) hs2 hf0
      refine ⟨recs, evs, reqs, hloop, ?_⟩
      simp at hlen
      omega


theorem matchesEntityRegex_sanitize {s : String} (h : matchesEntityRegex s = true) :
    sanitizeEntityName s = s ∧ s ≠ "" := by
  simp [matchesEntityRegex] at h
  obtain ⟨h1, h2⟩ := h
  constructor
  · show String.mk (s.data.filter isEntityChar) = s
    rw [List.filter_eq_self.mpr h2]
  · intro he
    subst he
    simp at h1

theorem strData_append (a b : String) : (a ++ b).data = a.data ++ b.data := by
  cases a; cases b; rfl

theorem not_matchesEntityRegex_check {s : String} (h : matchesEntityRegex s = false) :
    sanitizeEntityName s = "" ∨ sanitizeEntityName s ≠ s := by
  by_cases hse : s = ""
  · left; rw [hse]; rfl
  · by_cases hfix : sanitizeEntityName s = s
    · exfalso
      have hall : ∀ c ∈ s.data, isEntityChar c = true := by
        have hd : s.data.filter isEntityChar = s.data := by
          have hd2 : (sanitizeEntityName s).data = s.data := by rw [hfix]
          simpa [sanitizeEntityName] using hd2
        exact List.filter_eq_self.mp hd
      have hne : ¬s.data = [] := by
        intro hd
        apply hse
        have he : s = String.mk s.data := rfl
        rw [he, hd]
      have hm : matchesEntityRegex s = true := by
        simp [matchesEntityRegex]
        exact ⟨hne, hall⟩
      rw [hm] at h
      cases h
    · right; exact hfix

theorem buildEntityUrl_ne_empty (baseUrl name : String) (opts : FetchOptions) :
    buildEntityUrl baseUrl name opts ≠ "" := by
  intro h
  have hd : (buildEntityUrl baseUrl name opts).data = [] := by rw [h]
  simp only [buildEntityUrl] at hd
  by_cases hp : (entityQueryParams opts).isEmpty
  · rw [if_pos hp] at hd
    rw [strData_append, strData_append] at hd
    simp at hd
  · rw [if_neg hp] at hd
    rw [strData_append, strData_append, strData_append, strData_append] at hd
    simp at hd


/-- Claim C3 (amended): with no record cap and a server that always
answers with a continuation link, fetchEntityData terminates after
exactly 101 page requests (the ceiling check pageCount > 100 runs
after the fetch of each page) and returns the accumulated records
rather than throwing. -/
theorem fetchEntityData_ceiling_101 {α : Type} (server : String → DResp α)
    (baseUrl entityName : String)
    (hb : isValidD365Url baseUrl = true)
    (hn : matchesEntityRegex entityName = true)
    (hs : ∀ u, ∃ p, server u = .success p ∧ ∃ s, p.nextLink = some s ∧ s ≠ "") :
    ∃ out, fetchEntityData server baseUrl entityName {} = .ok out ∧
      out.requests.length = 101 := by
  obtain ⟨hfix, hne⟩ := matchesEntityRegex_sanitize hn
  obtain ⟨recs, evs, reqs, hloop, hlen⟩ :=
    fetchLoop_always_next server entityName hs 101 0
      (buildEntityUrl baseUrl (sanitizeEntityName entityName) {}) [] [] []
      (by rw [hfix]; exact buildEntityUrl_ne_empty baseUrl entityName {}) (by omega)
  rw [hfix] at hloop
  refine ⟨{ records := recs, events := evs ++ [.complete recs.length], requests := reqs }, ?_, ?_⟩
  · simp [fetchEntityData, hb, hfix, hne, hloop]
  · simpa using hlen

/-- Witness for claim C3 at the concrete infinite mock server. -/
theorem fetchEntityData_ceiling_101_witness :
    isValidD365Url mockBase = true ∧ matchesEntityRegex "Customers" = true ∧
    ∃ out, fetchEntityData mockServerInfinite mockBase "Customers" {} = .ok out ∧
      out.requests.length = 101 := by
  refine ⟨by decide, by decide, ?_⟩
  exact fetchEntityData_ceiling_101 mockServerInfinite mockBase "Customers" (by decide) (by decide)
    (fun u => ⟨⟨[7], some mockUrl1⟩, rfl, mockUrl1, rfl, by decide⟩)


/-- Fetching progress events among all progress events. -/
def isFetchingEvent : ProgEvent → Bool
  | .fetching _ _ => true
  | .complete _ => false

/-- Counterexample to claim C4: on the 3-page mock the progress
callback fires before each page request, so the record counts it
receives are the counts accumulated before each response (0, 2, 4),
not the counts including that response (2, 4, 6). -/
theorem fetchEntityData_callback_pre_counts :
    (fetchEntityData mockServer3 mockBase "Customers" {}).toOption.map
        (fun o => o.events.filter isFetchingEvent) =
      some [.fetching 1 0, .fetching 2 2, .fetching 3 4] ∧
    some [ProgEvent.fetching 1 0, .fetching 2 2, .fetching 3 4] ≠
      some [.fetching 1 2, .fetching 2 4, .fetching 3 6] := by
  exact ⟨rfl, by decide⟩

/-- Claim C4 (amended): on the 3-page mock of 2 records each,
fetchEntityData returns the 6 records in page-then-array order,
requests the 3 page URLs in order, and fires the progress callback
exactly 3 times in page order, each time before that page is
requested, passing the page index and the record count accumulated
before that response (0, 2, 4). -/
theorem fetchEntityData_pagination :
    fetchEntityData mockServer3 mockBase "Customers" {} =
      .ok { records := [1, 2, 3, 4, 5, 6],
            events := [.fetching 1 0, .fetching 2 2, .fetching 3 4, .complete 6],
            requests := [mockUrl1, mockUrl2, mockUrl3] } := rfl

/-- Initial request URL of the capped 3-page mock. -/
def mockUrl1Cap : String := buildEntityUrl mockBase "Customers" { top := some 3 }

/-- Capped mock: the first request carries the top parameter. -/
def mockServer3Cap : String → DResp Nat := fun u =>
  if u = mockUrl1Cap then .success ⟨[1, 2], some mockUrl2⟩
  else if u = mockUrl2 then .success ⟨[3, 4], some mockUrl3⟩
  else if u = mockUrl3 then .success ⟨[5, 6], none⟩
  else .failure 404

theorem fetchLoop_cap_le {α : Type} (server : String → DResp α) (name : String) (n : Nat)
    (hn : 0 < n) :
    ∀ (f : Nat) (url : String) (pageCount : Nat) (acc : List α) (events : List ProgEvent)
      (requests : List String), acc.length < n →
    ∀ recs evs reqs,
      fetchLoop server name (some n) f url pageCount acc events requests =
        .ok (recs, evs, reqs) → recs.length ≤ n := by
  intro f
  induction f with
  | zero =>
    intro url pageCount acc events requests hacc recs evs reqs hok
    rw [fetchLoop_zero] at hok
    cases hok
    omega
  | succ f ih =>
    intro url pageCount acc events requests hacc recs evs reqs hok
    rw [fetchLoop_succ] at hok
    by_cases hurl : url = ""
    · rw [if_pos hurl] at hok
      cases hok
      omega
    · rw [if_neg hurl] at hok
      cases hsv : server url with
      | failure status => rw [hsv] at hok; cases hok
      | success page =>
        rw [hsv] at hok
        have hok2 : (if (decide (n ≠ 0) && decide (n ≤ (acc ++ page.value).length)) = true then
              Except.ok ((acc ++ page.value).take n,
                events ++ [ProgEvent.fetching (pageCount + 1) acc.length], requests ++ [url])
            else if pageCount + 1 > 100 then
              Except.ok (acc ++ page.value,
                events ++ [ProgEvent.fetching (pageCount + 1) acc.length], requests ++ [url])
            else
              fetchLoop server name (some n) f (page.nextLink.getD "") (pageCount + 1)
                (acc ++ page.value) (events ++ [ProgEvent.fetching (pageCount + 1) acc.length])
                (requests ++ [url])) = Except.ok (recs, evs, reqs) := hok
        by_cases hcap : (decide (n ≠ 0) && decide (n ≤ (acc ++ page.value).length)) = true
        · rw [if_pos hcap] at hok2
          cases hok2
          simp [List.length_take]
        · rw [if_neg hcap] at hok2
          have hlt : (acc ++ page.value).length < n := by
            simp only [List.length_append]
            simp at hcap
            have := hcap (by omega)
            omega
          by_cases hpc : pageCount + 1 > 100
          · rw [if_pos hpc] at hok2
            cases hok2
            omega
          · rw [if_neg hpc] at hok2
            exact ih _ _ _ _ _ hlt recs evs reqs hok2


/-- Claim C5: cap enforcement of fetchEntityData. On the 3-page mock
with a cap of 3 it returns exactly the first 3 records and stops after
the second page request, and in general a run with a positive cap n
never returns more than n records. -/
theorem fetchEntityData_cap :
    ((fetchEntityData mockServer3Cap mockBase "Customers" { top := some 3 }).toOption.map
      (fun o => (o.records, o.requests))) = some ([1, 2, 3], [mockUrl1Cap, mockUrl2]) ∧
    (∀ {α : Type} (server : String → DResp α) (baseUrl entityName : String) (n : Nat),
      0 < n → ∀ out,
      fetchEntityData server baseUrl entityName { top := some n } = .ok out →
      out.records.length ≤ n) := by
  constructor
  · rfl
  · intro α server baseUrl entityName n hn out hout
    simp only [fetchEntityData] at hout
    by_cases hb : !isValidD365Url baseUrl
    · rw [if_pos hb] at hout
      cases hout
    · rw [if_neg hb] at hout
      by_cases hv : (sanitizeEntityName entityName = "" ||
          sanitizeEntityName entityName ≠ entityName : Bool)
      · rw [if_pos hv] at hout
        cases hout
      · rw [if_neg hv] at hout
        cases hfl : fetchLoop server entityName (some n) 101
            (buildEntityUrl baseUrl (sanitizeEntityName entityName) { top := some n })
            0 [] [] [] with
        | error e => rw [hfl] at hout; cases hout
        | ok triple =>
          obtain ⟨recs, evs, reqs⟩ := triple
          rw [hfl] at hout
          cases hout
          have := fetchLoop_cap_le server entityName n hn 101
            (buildEntityUrl baseUrl (sanitizeEntityName entityName) { top := some n })
            0 [] [] [] (by simpa using hn) recs evs reqs hfl
          simpa using this

/-- Witness for claim C5 at the concrete capped 3-page mock. -/
theorem fetchEntityData_cap_witness :
    (0 : Nat) < 3 ∧
    ∃ out, fetchEntityData mockServer3Cap mockBase "Customers" { top := some 3 } = .ok out ∧
      out.records.length ≤ 3 := by
  refine ⟨by decide, ?_⟩
  refine ⟨{ records := [1, 2, 3],
            events := [.fetching 1 0, .fetching 2 2, .complete 3],
            requests := [mockUrl1Cap, mockUrl2] }, rfl, ?_⟩
  exact fetchEntityData_cap.2 mockServer3Cap mockBase "Customers" 3 (by decide) _ rfl


/-- Claim C6: for every entity name that does not match the pattern of
one or more word characters (including the empty string), both
fetchEntityCount and fetchEntityData fail with "Invalid entity name"
before consulting the server; for every name that does match, the name
passes sanitization unchanged and is used as-is in the request path. -/
theorem entityName_validation :
    (∀ baseUrl entityName, isValidD365Url baseUrl = true →
      matchesEntityRegex entityName = false →
      (∀ countServer, fetchEntityCount countServer baseUrl entityName =
        .error "Invalid entity name") ∧
      (∀ (server : String → DResp Nat) opts,
        fetchEntityData server baseUrl entityName opts = .error "Invalid entity name")) ∧
    (∀ entityName, matchesEntityRegex entityName = true →
      sanitizeEntityName entityName = entityName ∧
      (∀ baseUrl, countUrl baseUrl (sanitizeEntityName entityName) =
        baseUrl ++ "/data/" ++ entityName ++ "/$count") ∧
      (∀ baseUrl opts, buildEntityUrl baseUrl (sanitizeEntityName entityName) opts =
        buildEntityUrl baseUrl entityName opts)) := by
  constructor
  · intro baseUrl entityName hb hm
    have hc := not_matchesEntityRegex_check hm
    constructor
    · intro countServer
      rcases hc with hc | hc <;> simp [fetchEntityCount, hb, hc]
    · intro server opts
      rcases hc with hc | hc <;> simp [fetchEntityData, hb, hc]
  · intro entityName hm
    obtain ⟨hfix, hne⟩ := matchesEntityRegex_sanitize hm
    exact ⟨hfix, fun baseUrl => by rw [hfix]; rfl, fun baseUrl opts => by rw [hfix]⟩

/-- Witness for claim C6 at the concrete names "Cust-omers", "" and
"Customers_1". -/
theorem entityName_validation_witness :
    isValidD365Url mockBase = true ∧
    matchesEntityRegex "Cust-omers" = false ∧
    matchesEntityRegex "" = false ∧
    matchesEntityRegex "Customers_1" = true ∧
    (∀ countServer, fetchEntityCount countServer mockBase "Cust-omers" =
      .error "Invalid entity name") ∧
    (∀ countServer, fetchEntityCount countServer mockBase "" =
      .error "Invalid entity name") ∧
    sanitizeEntityName "Customers_1" = "Customers_1" := by
  refine ⟨by decide, by decide, by decide, by decide, ?_, ?_, ?_⟩
  · exact fun cs => ((entityName_validation.1 mockBase "Cust-omers" (by decide) (by decide)).1 cs)
  · exact fun cs => ((entityName_validation.1 mockBase "" (by decide) (by decide)).1 cs)
  · exact (entityName_validation.2 "Customers_1" (by decide)).1

/-- Claim C7: createOrUpdateFile consults getFileContent; when the
lookup yields a file handle carrying a non-empty sha the write payload
includes exactly that sha, and when the lookup yields none the payload
carries no sha; in both cases the payload carries the base64-encoded
content, the commit message and the branch. -/
theorem createOrUpdateFile_sha (owner repo path content message branch : String)
    (readReply : GhReply)
    (hro : isValidRepo owner repo = true) (hpa : isValidPath path = true) :
    (∀ fi h, getFileContent owner repo path readReply = .ok (some fi) →
      fi.sha = some h → h ≠ "" →
      createOrUpdateFile owner repo path content message branch readReply =
        .ok { message := message, content := encodeContentBase64 content,
              branch := branch, sha := some h }) ∧
    (getFileContent owner repo path readReply = .ok none →
      createOrUpdateFile owner repo path content message branch readReply =
        .ok { message := message, content := encodeContentBase64 content,
              branch := branch, sha := none }) := by
  constructor
  · intro fi h hget hsha hne
    simp only [createOrUpdateFile]
    rw [if_neg (by simp [hro, hpa])]
    rw [hget]
    simp [hsha, hne]
  · intro hget
    simp only [createOrUpdateFile]
    rw [if_neg (by simp [hro, hpa])]
    rw [hget]

/-- Witness for claim C7 at a concrete existing file with sha "abc123"
and at a concrete missing file. -/
theorem createOrUpdateFile_sha_witness :
    isValidRepo "me" "data" = true ∧ isValidPath "exports/A.json" = true ∧
    createOrUpdateFile "me" "data" "exports/A.json" "hi" "msg" "main"
        (.http true 200 none { sha := some "abc123" }) =
      .ok { message := "msg", content := encodeContentBase64 "hi",
            branch := "main", sha := some "abc123" } ∧
    createOrUpdateFile "me" "data" "exports/A.json" "hi" "msg" "main"
        (.http false 404 none { sha := none }) =
      .ok { message := "msg", content := encodeContentBase64 "hi",
            branch := "main", sha := none } := by
  refine ⟨by decide, by decide, ?_, ?_⟩
  · exact (createOrUpdateFile_sha "me" "data" "exports/A.json" "hi" "msg" "main"
      (.http true 200 none { sha := some "abc123" }) (by decide) (by decide)).1
      { sha := some "abc123" } "abc123" (by decide) rfl (by decide)
  · exact (createOrUpdateFile_sha "me" "data" "exports/A.json" "hi" "msg" "main"
      (.http false 404 none { sha := none }) (by decide) (by decide)).2 (by decide)

/-- Claim C8 (code bug): getFileContent decides "not found" by testing
whether the error message contains the substring "404", not by the
HTTP status. A 404 response whose body message is "Not Found" — the
actual not-found body of the remote service — is re-thrown instead of
mapped to none, while a 500 response whose message happens to contain
"404" is wrongly mapped to none. -/
theorem getFileContent_notFound_rethrows :
    getFileContent "owner" "repo" "exports/data.json"
        (.http false 404 (some "Not Found") { sha := none }) = .error "Not Found" ∧
    getFileContent "owner" "repo" "exports/data.json"
        (.http false 500 (some "upstream 404 error") { sha := none }) = .ok none := by
  exact ⟨by decide, by decide⟩

/-- Claim C9: for every record list and entity name, parsing the
output of recordsToJson yields the envelope object whose data field
equals the original record list, whose entityName field equals the
given name and whose recordCount field equals the length of the list;
and recordsToCsv of the empty list is the empty string. -/
theorem recordsToJson_roundtrip (now entityName : String) (records : List Json) :
    parseJson (recordsToJson now records entityName) =
      some (.obj [("exportTimestamp", .str now), ("entityName", .str entityName),
        ("recordCount", .num records.length), ("data", .arr records)]) ∧
    (parseJson (recordsToJson now records entityName)).bind
        (fun j => j.getField "data") = some (.arr records) ∧
    (parseJson (recordsToJson now records entityName)).bind
        (fun j => j.getField "entityName") = some (.str entityName) ∧
    (parseJson (recordsToJson now records entityName)).bind
        (fun j => j.getField "recordCount") = some (.num records.length) ∧
    recordsToCsv [] = "" := by
  have h := parseJson_stringify (.obj [("exportTimestamp", .str now),
    ("entityName", .str entityName), ("recordCount", .num records.length),
    ("data", .arr records)])
  have he : recordsToJson now records entityName = stringify (.obj [("exportTimestamp", .str now),
      ("entityName", .str entityName), ("recordCount", .num records.length),
      ("data", .arr records)]) := rfl
  rw [he]
  refine ⟨h, ?_, ?_, ?_, rfl⟩
  · rw [h]; rfl
  · rw [h]; rfl
  · rw [h]; rfl

/-- Witness for claim C9 at a concrete timestamp, entity name and
two-record list. -/
theorem recordsToJson_roundtrip_witness :
    parseJson (recordsToJson "2026-01-01T00:00:00.000Z" [Json.num 1, Json.num 2] "Customers") =
      some (.obj [("exportTimestamp", .str "2026-01-01T00:00:00.000Z"),
        ("entityName", .str "Customers"), ("recordCount", .num 2),
        ("data", .arr [Json.num 1, Json.num 2])]) ∧
    recordsToCsv [] = "" := by
  have h := recordsToJson_roundtrip "2026-01-01T00:00:00.000Z" "Customers"
    [Json.num 1, Json.num 2]
  exact ⟨h.1, h.2.2.2.2⟩


/-- Claim C10: isValidRepo accepts every pair of non-empty strings
over letters, digits, underscore, dot and hyphen — including strings
of dots such as ".." — so with owner and repo equal to ".." the
repository check, the file lookup and the file write all pass
validation and proceed to build and issue the request. -/
theorem isValidRepo_dotdot :
    (∀ owner repo : String, owner ≠ "" → repo ≠ "" →
      owner.data.all isRepoChar = true → repo.data.all isRepoChar = true →
      isValidRepo owner repo = true) ∧
    isValidRepo ".." ".." = true ∧
    checkRepository ".." ".." = .ok "/repos/../.." ∧
    getFileContent ".." ".." "exports/data.json"
        (.http true 200 none { sha := some "abc" }) = .ok (some { sha := some "abc" }) ∧
    createOrUpdateFile ".." ".." "exports/data.json" "hi" "msg" "main"
        (.http false 404 none { sha := none }) =
      .ok { message := "msg", content := encodeContentBase64 "hi",
            branch := "main", sha := none } := by
  refine ⟨?_, by decide, by decide, by decide, by decide⟩
  intro owner repo ho hr hao har
  have hoe : owner.data.isEmpty = false := by
    cases hd : owner.data.isEmpty
    · rfl
    · exfalso
      apply ho
      have : owner.data = [] := by simpa [List.isEmpty_iff] using hd
      have he : owner = String.mk owner.data := rfl
      rw [he, this]
  have hre : repo.data.isEmpty = false := by
    cases hd : repo.data.isEmpty
    · rfl
    · exfalso
      apply hr
      have : repo.data = [] := by simpa [List.isEmpty_iff] using hd
      have he : repo = String.mk repo.data := rfl
      rw [he, this]
  simp [isValidRepo, ho, hr, hoe, hre, hao, har]

/-- Witness for claim C10 at the concrete pair ".." and "..". -/
theorem isValidRepo_dotdot_witness :
    (".." : String) ≠ "" ∧ "..".data.all isRepoChar = true ∧
    isValidRepo ".." ".." = true := by
  refine ⟨by decide, by decide, ?_⟩
  exact isValidRepo_dotdot.1 ".." ".." (by decide) (by decide) (by decide) (by decide)

/-- Concrete orchestrator environment for the partial-failure
scenario: three entities each fetching one record, with the commit of
entity B failing. -/
def mockExportEnv : OrchestratorEnv :=
  { fetch := fun e =>
      if e = "A" then .ok [Json.num 1]
      else if e = "B" then .ok [Json.num 2]
      else if e = "C" then .ok [Json.num 3]
      else .error "unknown entity",
    commit := fun path _ _ =>
      if strContains path "/B_" then .error "commit failed" else .ok (),
    now := "2026-01-01T00:00:00.000Z",
    format := .json,
    folder := "exports" }

/-- Claim C2: handleExport produces exactly one result per selected
entity, in selection order; a failure of the fetch or of the commit of
one entity is recorded as an error result carrying that failure
message while every other entity is still processed; concretely, with
three entities where the commit of the second fails, the result
statuses are success, error, success. -/
theorem handleExport_partial_failure :
    (∀ env entities, handleExport env entities = entities.map (processEntity env)) ∧
    (∀ env e msg, env.fetch e = .error msg →
      processEntity env e = { entity := e, status := ExpStatus.error, recordCount := 0,
                              message := some msg, filename := none, path := none }) ∧
    (∀ env e records msg content filename, env.fetch e = .ok records → records.length ≠ 0 →
      exportContent env e records = (content, filename) →
      env.commit (exportPath env filename) content
        (exportCommitMessage e records.length) = .error msg →
      processEntity env e = { entity := e, status := ExpStatus.error, recordCount := 0,
                              message := some msg, filename := none, path := none }) ∧
    (∀ env e records content filename, env.fetch e = .ok records → records.length ≠ 0 →
      exportContent env e records = (content, filename) →
      env.commit (exportPath env filename) content
        (exportCommitMessage e records.length) = .ok () →
      processEntity env e = { entity := e, status := ExpStatus.success,
                              recordCount := records.length, message := none,
                              filename := some filename,
                              path := some (exportPath env filename) }) ∧
    ((handleExport mockExportEnv ["A", "B", "C"]).map
        (fun r => (r.entity, r.status, r.message)) =
      [("A", ExpStatus.success, none), ("B", ExpStatus.error, some "commit failed"),
       ("C", ExpStatus.success, none)]) := by
  refine ⟨?_, ?_, ?_, ?_, ?_⟩
  · intro env entities
    induction entities with
    | nil => rfl
    | cons e rest ih => simp [handleExport, ih]
  · intro env e msg hfetch
    simp [processEntity, hfetch]
  · intro env e records msg content filename hfetch hlen hec hcommit
    simp only [processEntity, hfetch]
    rw [if_neg hlen, hec]
    simp only [hcommit]
  · intro env e records content filename hfetch hlen hec hcommit
    simp only [processEntity, hfetch]
    rw [if_neg hlen, hec]
    simp only [hcommit]
  · rfl

/-- Witness for claim C2 at the concrete entity "Z" whose fetch fails
in the mock environment. -/
theorem handleExport_partial_failure_witness :
    mockExportEnv.fetch "Z" = .error "unknown entity" ∧
    processEntity mockExportEnv "Z" =
      { entity := "Z", status := ExpStatus.error, recordCount := 0,
        message := some "unknown entity", filename := none, path := none } := by
  refine ⟨rfl, ?_⟩
  exact handleExport_partial_failure.2.1 mockExportEnv "Z" "unknown entity" rfl

end D365Exporter
